import Mathlib

/-!
Verification of the overlapping-pair registry of the reactphysics3d engine
(file src/engine/OverlappingPairs.h).

The header file is the authority for every function whose body it contains
inline: the count accessors, getPairIndex, getLastFrameCollisionInfo,
computeBodiesIndexPair and the LastFrameCollisionInfo constructor are
translated directly from it.  The bodies of the mutating operations
(prepareAddPair, addPair, destroyPair, movePairToIndex, removePair,
addLastFrameInfoIfNecessary, clearObsoleteLastFrameCollisionInfos) live in
a .cpp file that is not part of the supplied sources; those are modelled
from the specification, as marked in their doc comments.

The structure-of-arrays buffer of the C++ class (parallel arrays mPairIds,
mPairBroadPhaseId1/2, mProxyShapes1/2, mLastFrameCollisionInfos,
mNeedToTestOverlap, mIsActive, mNarrowPhaseAlgorithmType, mIsShape1Convex,
all indexed by the same slot) is embedded as a single function from slot to
a record of the per-slot fields, together with the explicit element count
mNbPairs; slots at or beyond mNbPairs hold unspecified garbage, exactly as
the uninitialized tail of the C++ buffer does.  The hash map
mMapPairIdToPairIndex is embedded as a function from key to an optional
value.
-/

namespace RP3D

/-- Three-component vector; only ever built from small integer literals
here (the default separating axis), so integer components suffice. -/
structure Vector3 where
  x : Int
  y : Int
  z : Int
deriving DecidableEq

/-- An entity handle, a single numeric id (as in the engine's ECS). -/
structure Entity where
  id : Nat
deriving DecidableEq

/-- The inputs of addPair that are read off a ProxyShape object: its
entity, its broad-phase id, and whether its collision shape is convex. -/
structure ProxyShape where
  entity : Entity
  broadPhaseId : Int
  isConvex : Bool
deriving DecidableEq

/-- Collision info about the last frame, used for temporal coherence
between frames (struct LastFrameCollisionInfo of the header). -/
structure LastFrameCollisionInfo where
  isValid : Bool
  isObsolete : Bool
  wasColliding : Bool
  wasUsingGJK : Bool
  wasUsingSAT : Bool
  gjkSeparatingAxis : Vector3
  satIsAxisFacePolyhedron1 : Bool
  satIsAxisFacePolyhedron2 : Bool
  satMinAxisFaceIndex : Nat
  satMinEdge1Index : Nat
  satMinEdge2Index : Nat
deriving DecidableEq

/-- The default constructor of LastFrameCollisionInfo from the header: it
assigns isValid, isObsolete, wasColliding, wasUsingSAT, wasUsingGJK to
false and gjkSeparatingAxis to Vector3(0, 1, 0).  The five SAT fields are
left unassigned by the C++ constructor; fixed values stand for that
indeterminate content here (no claim depends on them). -/
def LastFrameCollisionInfo.init : LastFrameCollisionInfo where
  isValid := false
  isObsolete := false
  wasColliding := false
  wasUsingGJK := false
  wasUsingSAT := false
  gjkSeparatingAxis := ⟨0, 1, 0⟩
  satIsAxisFacePolyhedron1 := false
  satIsAxisFacePolyhedron2 := false
  satMinAxisFaceIndex := 0
  satMinEdge1Index := 0
  satMinEdge2Index := 0

/-- The per-slot content of the parallel arrays of OverlappingPairs: one
logical pair record.  The field isConvexVsConvex records the
classification computed at insertion (both shapes convex); physically the
C++ code encodes it by which partition the slot lies in. -/
structure PairRecord where
  pairId : Nat
  pairBroadPhaseId1 : Int
  pairBroadPhaseId2 : Int
  proxyShape1 : Entity
  proxyShape2 : Entity
  lastFrameCollisionInfos : Nat → Option LastFrameCollisionInfo
  needToTestOverlap : Bool
  isActive : Bool
  narrowPhaseAlgorithmType : Nat
  isShape1Convex : Bool
  isConvexVsConvex : Bool

/-- Arbitrary record standing for the uninitialized content of a slot that
has never been written. -/
def PairRecord.default : PairRecord where
  pairId := 0
  pairBroadPhaseId1 := 0
  pairBroadPhaseId2 := 0
  proxyShape1 := ⟨0⟩
  proxyShape2 := ⟨0⟩
  lastFrameCollisionInfos := fun _ => none
  needToTestOverlap := false
  isActive := false
  narrowPhaseAlgorithmType := 0
  isShape1Convex := false
  isConvexVsConvex := false

/-- State of the OverlappingPairs class: element count, partition
boundary, the slot-indexed pair data, the pair-id-to-slot hash map, and
the monotone id source of the identifier allocator. -/
structure OverlappingPairs where
  mNbPairs : Nat
  mConcavePairsStartIndex : Nat
  mPairData : Nat → PairRecord
  mMapPairIdToPairIndex : Nat → Option Nat
  mNextPairId : Nat

/-- Point update of the slot-indexed pair data. -/
def setSlot (f : Nat → PairRecord) (i : Nat) (r : PairRecord) : Nat → PairRecord :=
  fun j => if j = i then r else f j

/-- Point insertion (or overwrite) in the id-to-slot map. -/
def mapSet (m : Nat → Option Nat) (k v : Nat) : Nat → Option Nat :=
  fun k' => if k' = k then some v else m k'

/-- Point removal from the id-to-slot map. -/
def mapErase (m : Nat → Option Nat) (k : Nat) : Nat → Option Nat :=
  fun k' => if k' = k then none else m k'

/-- Modelled from the spec: the registry starts empty (the constructor
body is not among the supplied sources; the spec's lifecycle section has
records created only by addPair). -/
def emptyPairs : OverlappingPairs where
  mNbPairs := 0
  mConcavePairsStartIndex := 0
  mPairData := fun _ => PairRecord.default
  mMapPairIdToPairIndex := fun _ => none
  mNextPairId := 0

-- ------------------------------------------------------------------
-- Accessors translated directly from the inline bodies in the header.
-- ------------------------------------------------------------------

/-- Size of the value range of the C++ type uint64. -/
def UINT64_MOD : Nat := 2 ^ 64

/-- Return the number of pairs (header line 353). -/
def getNbPairs (st : OverlappingPairs) : Nat :=
  st.mNbPairs

/-- Return the number of convex vs convex pairs (header line 358). -/
def getNbConvexVsConvexPairs (st : OverlappingPairs) : Nat :=
  st.mConcavePairsStartIndex

/-- Return the number of convex vs concave pairs (header line 363):
the uint64 subtraction mNbPairs - mConcavePairsStartIndex, which wraps
modulo 2^64 when the subtrahend is larger. -/
def getNbConvexVsConcavePairs (st : OverlappingPairs) : Nat :=
  (UINT64_MOD + st.mNbPairs - st.mConcavePairsStartIndex) % UINT64_MOD

/-- Return the starting index of the convex vs concave pairs (header
line 368). -/
def getConvexVsConcavePairsStartIndex (st : OverlappingPairs) : Nat :=
  st.mConcavePairsStartIndex

/-- Return the index of a given overlapping pair in the internal array
(header line 321): a lookup in mMapPairIdToPairIndex.  The source asserts
that the key is present; the None result models the state in which that
assertion would fail. -/
def getPairIndex (st : OverlappingPairs) (pairId : Nat) : Option Nat :=
  st.mMapPairIdToPairIndex pairId

/-- Return the last frame collision info for a given shape id, or the
explicit absent value if none is found (header lines 327-339): resolve the
pair id to its slot, then look the shapes id up in that slot's
mLastFrameCollisionInfos map; the C++ returns nullptr on a missing key and
mutates nothing. -/
def getLastFrameCollisionInfo (st : OverlappingPairs) (pairId shapesId : Nat) :
    Option LastFrameCollisionInfo :=
  match st.mMapPairIdToPairIndex pairId with
  | none => none
  | some index => (st.mPairData index).lastFrameCollisionInfos shapesId

/-- Return the pair of bodies index (header lines 342-350): the pair
ordered with the body of smaller id first. -/
def computeBodiesIndexPair (body1Entity body2Entity : Entity) : Entity × Entity :=
  if body1Entity.id < body2Entity.id then (body1Entity, body2Entity)
  else (body2Entity, body1Entity)

-- ------------------------------------------------------------------
-- Mutating operations: bodies modelled from the spec (the defining .cpp
-- file is not among the supplied sources; the header declares them).
-- ------------------------------------------------------------------

/-- Does the record hold exactly this unordered pair of shape entities? -/
def sameShapePair (r : PairRecord) (e1 e2 : Entity) : Prop :=
  (r.proxyShape1 = e1 ∧ r.proxyShape2 = e2) ∨ (r.proxyShape1 = e2 ∧ r.proxyShape2 = e1)

instance (r : PairRecord) (e1 e2 : Entity) : Decidable (sameShapePair r e1 e2) := by
  unfold sameShapePair
  infer_instance

/-- Slot of the live record holding the given unordered shape pair, if
one exists (duplicate detection of addPair, invariant I3 of the spec). -/
def findExistingSlot (st : OverlappingPairs) (e1 e2 : Entity) : Option Nat :=
  (List.range st.mNbPairs).find? fun i => decide (sameShapePair (st.mPairData i) e1 e2)

/-- Modelled from the spec: movePairToIndex (declared at header line 210)
copies the record at srcIndex into destIndex and updates the moved
record's entry of the id-to-slot map to destIndex, the map update the
spec requires of every mutation that moves a record's slot. -/
def movePairToIndex (st : OverlappingPairs) (srcIndex destIndex : Nat) : OverlappingPairs :=
  { st with
      mPairData := setSlot st.mPairData destIndex (st.mPairData srcIndex)
      mMapPairIdToPairIndex :=
        mapSet st.mMapPairIdToPairIndex (st.mPairData srcIndex).pairId destIndex }

/-- Modelled from the spec: prepareAddPair (declared at header line 204)
computes the slot where the new pair is inserted.  A convex-vs-convex
pair goes at mConcavePairsStartIndex: the record currently there (the
first convex-vs-concave pair, when one exists) is moved to mNbPairs,
vacating the boundary slot, and the boundary then increments.  A
convex-vs-concave pair simply goes at mNbPairs. -/
def prepareAddPair (st : OverlappingPairs) (isConvexVsConvex : Bool) :
    Nat × OverlappingPairs :=
  if isConvexVsConvex then
    let st1 :=
      if st.mConcavePairsStartIndex = st.mNbPairs then st
      else movePairToIndex st st.mConcavePairsStartIndex st.mNbPairs
    (st.mConcavePairsStartIndex,
      { st1 with mConcavePairsStartIndex := st1.mConcavePairsStartIndex + 1 })
  else
    (st.mNbPairs, st)

/-- Initial field values of a freshly created pair record:
needToTestOverlap true, isActive as computed by the caller from the
current body states, the narrow-phase algorithm selector as chosen by the
external collision dispatch, an empty temporal-coherence map. -/
def newPairRecord (pid : Nat) (shape1 shape2 : ProxyShape) (isActive : Bool)
    (algorithmType : Nat) (isConvexVsConvex : Bool) : PairRecord where
  pairId := pid
  pairBroadPhaseId1 := shape1.broadPhaseId
  pairBroadPhaseId2 := shape2.broadPhaseId
  proxyShape1 := shape1.entity
  proxyShape2 := shape2.entity
  lastFrameCollisionInfos := fun _ => none
  needToTestOverlap := true
  isActive := isActive
  narrowPhaseAlgorithmType := algorithmType
  isShape1Convex := shape1.isConvex
  isConvexVsConvex := isConvexVsConvex

/-- Modelled from the spec: addPair (declared at header line 235).  If the
unordered shape pair already has a live record the call is a no-op that
returns the existing pair id (invariant I3).  Otherwise it classifies the
pair (convex-vs-convex when both shapes are convex), reserves a slot via
prepareAddPair, allocates a fresh monotonically-sourced id, initializes
the fields and records the id-to-slot mapping. -/
def addPair (st : OverlappingPairs) (shape1 shape2 : ProxyShape) (isActive : Bool)
    (algorithmType : Nat) : Nat × OverlappingPairs :=
  match findExistingSlot st shape1.entity shape2.entity with
  | some slot => ((st.mPairData slot).pairId, st)
  | none =>
    let isConvexVsConvex := shape1.isConvex && shape2.isConvex
    let pid := st.mNextPairId
    let res := prepareAddPair st isConvexVsConvex
    (pid,
      { res.2 with
          mPairData := setSlot res.2.mPairData res.1
            (newPairRecord pid shape1 shape2 isActive algorithmType isConvexVsConvex)
          mMapPairIdToPairIndex := mapSet res.2.mMapPairIdToPairIndex pid res.1
          mNbPairs := res.2.mNbPairs + 1
          mNextPairId := res.2.mNextPairId + 1 })

/-- Modelled from the spec: destroyPair (declared at header line 207)
releases the destroyed record's resources and removes its id from the
id-to-slot map; the slot content itself is overwritten or popped by the
caller removePair. -/
def destroyPair (st : OverlappingPairs) (index : Nat) : OverlappingPairs :=
  { st with
      mMapPairIdToPairIndex :=
        mapErase st.mMapPairIdToPairIndex (st.mPairData index).pairId }

/-- Modelled from the spec: removePair (declared at header line 238).
The slot of the pair is found through the id-to-slot map, the pair is
destroyed, and the arrays are kept tightly packed per partition: a
convex-vs-concave pair is replaced by the last convex-vs-concave pair; a
convex-vs-convex pair is replaced by the last convex-vs-convex pair, the
vacated last convex slot is then filled with the last convex-vs-concave
pair, and mConcavePairsStartIndex decrements.  Every move updates the
moved record's id-to-slot entry; a swap with self is a no-op (the spec's
edge cases).  Finally mNbPairs decrements.  A non-live id is a no-op (the
source asserts liveness). -/
def removePair (st : OverlappingPairs) (pairId : Nat) : OverlappingPairs :=
  match st.mMapPairIdToPairIndex pairId with
  | none => st
  | some index =>
    let st1 := destroyPair st index
    if index < st.mConcavePairsStartIndex then
      let st2 :=
        if index = st.mConcavePairsStartIndex - 1 then st1
        else movePairToIndex st1 (st.mConcavePairsStartIndex - 1) index
      let st3 :=
        if st.mConcavePairsStartIndex = st.mNbPairs then st2
        else movePairToIndex st2 (st.mNbPairs - 1) (st.mConcavePairsStartIndex - 1)
      { st3 with
          mNbPairs := st.mNbPairs - 1
          mConcavePairsStartIndex := st.mConcavePairsStartIndex - 1 }
    else
      let st2 :=
        if index = st.mNbPairs - 1 then st1
        else movePairToIndex st1 (st.mNbPairs - 1) index
      { st2 with mNbPairs := st.mNbPairs - 1 }

/-- Modelled from the spec: the canonical sub-shape key built by
addLastFrameInfoIfNecessary, the two 32-bit sub-shape ids normalized with
the smaller id first and collapsed into a single integer key, so the same
physical sub-shape pair always hashes identically regardless of call
order. -/
def shapesPairKey (shapeId1 shapeId2 : Nat) : Nat :=
  min shapeId1 shapeId2 * UINT64_MOD + max shapeId1 shapeId2

/-- Modelled from the spec: addLastFrameInfoIfNecessary (declared at
header line 271).  Under the canonical key of the two sub-shape ids, if
the slot's temporal-coherence map has no record, a fresh
default-constructed record (isValid false, default separating axis) is
inserted and returned; if a record exists, it is returned unchanged and
no state changes. -/
def addLastFrameInfoIfNecessary (st : OverlappingPairs) (pairIndex shapeId1 shapeId2 : Nat) :
    LastFrameCollisionInfo × OverlappingPairs :=
  let key := shapesPairKey shapeId1 shapeId2
  let r := st.mPairData pairIndex
  match r.lastFrameCollisionInfos key with
  | some info => (info, st)
  | none =>
    (LastFrameCollisionInfo.init,
      { st with
          mPairData := setSlot st.mPairData pairIndex
            { r with
                lastFrameCollisionInfos := fun k =>
                  if k = key then some LastFrameCollisionInfo.init
                  else r.lastFrameCollisionInfos k } })

/-- One sweep of a slot's temporal-coherence map: a record already marked
obsolete is deleted; any other record is marked obsolete. -/
def sweepLastFrameCollisionInfos (m : Nat → Option LastFrameCollisionInfo) :
    Nat → Option LastFrameCollisionInfo :=
  fun k =>
    match m k with
    | none => none
    | some info =>
      if info.isObsolete then none else some { info with isObsolete := true }

/-- Modelled from the spec: clearObsoleteLastFrameCollisionInfos (declared
at header line 277) iterates all live slots and sweeps each slot's
temporal-coherence map: records not touched since the last sweep (already
obsolete) are deleted, the rest are marked obsolete. -/
def clearObsoleteLastFrameCollisionInfos (st : OverlappingPairs) : OverlappingPairs :=
  { st with
      mPairData := fun i =>
        if i < st.mNbPairs then
          { st.mPairData i with
              lastFrameCollisionInfos :=
                sweepLastFrameCollisionInfos (st.mPairData i).lastFrameCollisionInfos }
        else st.mPairData i }

-- ------------------------------------------------------------------
-- Operation sequences over the registry.
-- ------------------------------------------------------------------

/-- One registry operation: an addPair call or a removePair call. -/
inductive PairOp where
  | add (shape1 shape2 : ProxyShape) (isActive : Bool) (algorithmType : Nat)
  | remove (pairId : Nat)
deriving DecidableEq

/-- Apply one operation to the registry state. -/
def applyOp (st : OverlappingPairs) : PairOp → OverlappingPairs
  | .add s1 s2 a alg => (addPair st s1 s2 a alg).2
  | .remove pid => removePair st pid

/-- Run a sequence of operations, first operation first. -/
def runOps (st : OverlappingPairs) : List PairOp → OverlappingPairs
  | [] => st
  | op :: ops => runOps (applyOp st op) ops

-- ------------------------------------------------------------------
-- The well-formedness invariant and basic lemmas.
-- ------------------------------------------------------------------

/-- Well-formedness invariant of a registry state: the boundary is within
bounds; the slots below the boundary are exactly the convex-vs-convex
records (invariant I2); the id-to-slot map is total and correct over the
live slots (invariant I1); every live pair id is below the monotone id
source; and no two live records hold the same unordered shape pair
(invariant I3). -/
structure WF (st : OverlappingPairs) : Prop where
  csi_le : st.mConcavePairsStartIndex ≤ st.mNbPairs
  partition_ok : ∀ i, i < st.mNbPairs →
    ((st.mPairData i).isConvexVsConvex = true ↔ i < st.mConcavePairsStartIndex)
  map_ok : ∀ p s, st.mMapPairIdToPairIndex p = some s ↔
    (s < st.mNbPairs ∧ (st.mPairData s).pairId = p)
  fresh : ∀ i, i < st.mNbPairs → (st.mPairData i).pairId < st.mNextPairId
  nodup : ∀ i j, i < st.mNbPairs → j < st.mNbPairs → i ≠ j →
    ¬ sameShapePair (st.mPairData i) (st.mPairData j).proxyShape1
      (st.mPairData j).proxyShape2

theorem setSlot_apply (f : Nat → PairRecord) (i : Nat) (r : PairRecord) (j : Nat) :
    setSlot f i r j = if j = i then r else f j := rfl

theorem mapSet_apply (m : Nat → Option Nat) (k v k' : Nat) :
    mapSet m k v k' = if k' = k then some v else m k' := rfl

theorem mapErase_apply (m : Nat → Option Nat) (k k' : Nat) :
    mapErase m k k' = if k' = k then none else m k' := rfl

theorem WF.emptyPairs : WF emptyPairs := by
  constructor <;> simp [RP3D.emptyPairs, PairRecord.default]

/-- Distinct live slots carry distinct pair ids (a consequence of the
correctness of the id-to-slot map). -/
theorem WF.pairId_inj {st : OverlappingPairs} (h : WF st) {i j : Nat}
    (hi : i < st.mNbPairs) (hj : j < st.mNbPairs)
    (hij : (st.mPairData i).pairId = (st.mPairData j).pairId) : i = j := by
  have h1 : st.mMapPairIdToPairIndex ((st.mPairData i).pairId) = some i :=
    (h.map_ok _ i).mpr ⟨hi, rfl⟩
  have h2 : st.mMapPairIdToPairIndex ((st.mPairData i).pairId) = some j :=
    (h.map_ok _ j).mpr ⟨hj, hij.symm⟩
  have := h1.symm.trans h2
  exact Option.some.inj this

theorem findExistingSlot_eq_none {st : OverlappingPairs} {e1 e2 : Entity} :
    findExistingSlot st e1 e2 = none ↔
      ∀ i, i < st.mNbPairs → ¬ sameShapePair (st.mPairData i) e1 e2 := by
  unfold findExistingSlot
  rw [List.find?_eq_none]
  constructor
  · intro h i hi hsame
    have := h i (List.mem_range.mpr hi)
    simp [hsame] at this
  · intro h i hi
    have := h i (List.mem_range.mp hi)
    simpa using this

theorem findExistingSlot_eq_some {st : OverlappingPairs} {e1 e2 : Entity} {i : Nat}
    (h : findExistingSlot st e1 e2 = some i) :
    i < st.mNbPairs ∧ sameShapePair (st.mPairData i) e1 e2 := by
  unfold findExistingSlot at h
  have hmem := List.mem_of_find?_eq_some h
  have hp := List.find?_some h
  exact ⟨List.mem_range.mp hmem, of_decide_eq_true hp⟩

/-- A symmetry fact about the unordered-pair predicate. -/
theorem sameShapePair_symm {r : PairRecord} {e1 e2 : Entity} :
    sameShapePair r e1 e2 ↔ sameShapePair r e2 e1 := by
  unfold sameShapePair
  tauto

-- ------------------------------------------------------------------
-- Equation lemmas: the exact result state of each operation, per case.
-- ------------------------------------------------------------------

theorem addPair_found {st : OverlappingPairs} {s1 s2 : ProxyShape} {a : Bool}
    {alg i : Nat} (h : findExistingSlot st s1.entity s2.entity = some i) :
    addPair st s1 s2 a alg = ((st.mPairData i).pairId, st) := by
  unfold addPair
  rw [h]

theorem addPair_concave {st : OverlappingPairs} {s1 s2 : ProxyShape} {a : Bool}
    {alg : Nat} (h1 : findExistingSlot st s1.entity s2.entity = none)
    (h2 : (s1.isConvex && s2.isConvex) = false) :
    addPair st s1 s2 a alg =
      (st.mNextPairId,
        { mNbPairs := st.mNbPairs + 1
          mConcavePairsStartIndex := st.mConcavePairsStartIndex
          mPairData := setSlot st.mPairData st.mNbPairs
            (newPairRecord st.mNextPairId s1 s2 a alg false)
          mMapPairIdToPairIndex :=
            mapSet st.mMapPairIdToPairIndex st.mNextPairId st.mNbPairs
          mNextPairId := st.mNextPairId + 1 }) := by
  unfold addPair prepareAddPair
  rw [h1, h2]
  rfl

theorem addPair_convex_boundary {st : OverlappingPairs} {s1 s2 : ProxyShape} {a : Bool}
    {alg : Nat} (h1 : findExistingSlot st s1.entity s2.entity = none)
    (h2 : (s1.isConvex && s2.isConvex) = true)
    (h3 : st.mConcavePairsStartIndex = st.mNbPairs) :
    addPair st s1 s2 a alg =
      (st.mNextPairId,
        { mNbPairs := st.mNbPairs + 1
          mConcavePairsStartIndex := st.mConcavePairsStartIndex + 1
          mPairData := setSlot st.mPairData st.mConcavePairsStartIndex
            (newPairRecord st.mNextPairId s1 s2 a alg true)
          mMapPairIdToPairIndex :=
            mapSet st.mMapPairIdToPairIndex st.mNextPairId st.mConcavePairsStartIndex
          mNextPairId := st.mNextPairId + 1 }) := by
  unfold addPair prepareAddPair
  rw [h1, h2, if_pos h3]
  rfl

theorem addPair_convex_move {st : OverlappingPairs} {s1 s2 : ProxyShape} {a : Bool}
    {alg : Nat} (h1 : findExistingSlot st s1.entity s2.entity = none)
    (h2 : (s1.isConvex && s2.isConvex) = true)
    (h3 : st.mConcavePairsStartIndex ≠ st.mNbPairs) :
    addPair st s1 s2 a alg =
      (st.mNextPairId,
        { mNbPairs := st.mNbPairs + 1
          mConcavePairsStartIndex := st.mConcavePairsStartIndex + 1
          mPairData := setSlot
            (setSlot st.mPairData st.mNbPairs (st.mPairData st.mConcavePairsStartIndex))
            st.mConcavePairsStartIndex
            (newPairRecord st.mNextPairId s1 s2 a alg true)
          mMapPairIdToPairIndex := mapSet
            (mapSet st.mMapPairIdToPairIndex
              (st.mPairData st.mConcavePairsStartIndex).pairId st.mNbPairs)
            st.mNextPairId st.mConcavePairsStartIndex
          mNextPairId := st.mNextPairId + 1 }) := by
  unfold addPair prepareAddPair movePairToIndex
  rw [h1, h2, if_neg h3]
  rfl

theorem removePair_notFound {st : OverlappingPairs} {pid : Nat}
    (h : st.mMapPairIdToPairIndex pid = none) :
    removePair st pid = st := by
  unfold removePair
  rw [h]

theorem removePair_concave_last {st : OverlappingPairs} {pid index : Nat}
    (h : st.mMapPairIdToPairIndex pid = some index)
    (h1 : ¬ index < st.mConcavePairsStartIndex) (h2 : index = st.mNbPairs - 1) :
    removePair st pid =
      { mNbPairs := st.mNbPairs - 1
        mConcavePairsStartIndex := st.mConcavePairsStartIndex
        mPairData := st.mPairData
        mMapPairIdToPairIndex :=
          mapErase st.mMapPairIdToPairIndex (st.mPairData index).pairId
        mNextPairId := st.mNextPairId } := by
  unfold removePair destroyPair
  rw [h]
  dsimp only
  rw [if_neg h1, if_pos h2]

theorem removePair_concave_swap {st : OverlappingPairs} {pid index : Nat}
    (h : st.mMapPairIdToPairIndex pid = some index)
    (h1 : ¬ index < st.mConcavePairsStartIndex) (h2 : index ≠ st.mNbPairs - 1) :
    removePair st pid =
      { mNbPairs := st.mNbPairs - 1
        mConcavePairsStartIndex := st.mConcavePairsStartIndex
        mPairData := setSlot st.mPairData index (st.mPairData (st.mNbPairs - 1))
        mMapPairIdToPairIndex := mapSet
          (mapErase st.mMapPairIdToPairIndex (st.mPairData index).pairId)
          (st.mPairData (st.mNbPairs - 1)).pairId index
        mNextPairId := st.mNextPairId } := by
  unfold removePair destroyPair movePairToIndex
  rw [h]
  dsimp only
  rw [if_neg h1, if_neg h2]

theorem removePair_convex_soleBoundary {st : OverlappingPairs} {pid index : Nat}
    (h : st.mMapPairIdToPairIndex pid = some index)
    (h1 : index < st.mConcavePairsStartIndex)
    (h2 : index = st.mConcavePairsStartIndex - 1)
    (h3 : st.mConcavePairsStartIndex = st.mNbPairs) :
    removePair st pid =
      { mNbPairs := st.mNbPairs - 1
        mConcavePairsStartIndex := st.mConcavePairsStartIndex - 1
        mPairData := st.mPairData
        mMapPairIdToPairIndex :=
          mapErase st.mMapPairIdToPairIndex (st.mPairData index).pairId
        mNextPairId := st.mNextPairId } := by
  unfold removePair destroyPair
  rw [h]
  dsimp only
  rw [if_pos h1, if_pos h2, if_pos h3]

theorem removePair_convex_boundary_fill {st : OverlappingPairs} {pid index : Nat}
    (h : st.mMapPairIdToPairIndex pid = some index)
    (h1 : index < st.mConcavePairsStartIndex)
    (h2 : index = st.mConcavePairsStartIndex - 1)
    (h3 : st.mConcavePairsStartIndex ≠ st.mNbPairs) :
    removePair st pid =
      { mNbPairs := st.mNbPairs - 1
        mConcavePairsStartIndex := st.mConcavePairsStartIndex - 1
        mPairData := setSlot st.mPairData (st.mConcavePairsStartIndex - 1)
          (st.mPairData (st.mNbPairs - 1))
        mMapPairIdToPairIndex := mapSet
          (mapErase st.mMapPairIdToPairIndex (st.mPairData index).pairId)
          (st.mPairData (st.mNbPairs - 1)).pairId (st.mConcavePairsStartIndex - 1)
        mNextPairId := st.mNextPairId } := by
  unfold removePair destroyPair movePairToIndex
  rw [h]
  dsimp only
  rw [if_pos h1, if_pos h2, if_neg h3]

theorem removePair_convex_swap_sole {st : OverlappingPairs} {pid index : Nat}
    (h : st.mMapPairIdToPairIndex pid = some index)
    (h1 : index < st.mConcavePairsStartIndex)
    (h2 : index ≠ st.mConcavePairsStartIndex - 1)
    (h3 : st.mConcavePairsStartIndex = st.mNbPairs) :
    removePair st pid =
      { mNbPairs := st.mNbPairs - 1
        mConcavePairsStartIndex := st.mConcavePairsStartIndex - 1
        mPairData := setSlot st.mPairData index
          (st.mPairData (st.mConcavePairsStartIndex - 1))
        mMapPairIdToPairIndex := mapSet
          (mapErase st.mMapPairIdToPairIndex (st.mPairData index).pairId)
          (st.mPairData (st.mConcavePairsStartIndex - 1)).pairId index
        mNextPairId := st.mNextPairId } := by
  unfold removePair destroyPair movePairToIndex
  rw [h]
  dsimp only
  rw [if_pos h1, if_neg h2, if_pos h3]

theorem removePair_convex_swap_fill {st : OverlappingPairs} {pid index : Nat}
    (h : st.mMapPairIdToPairIndex pid = some index)
    (h1 : index < st.mConcavePairsStartIndex)
    (h2 : index ≠ st.mConcavePairsStartIndex - 1)
    (h3 : st.mConcavePairsStartIndex ≠ st.mNbPairs)
    (h4 : st.mConcavePairsStartIndex ≤ st.mNbPairs) :
    removePair st pid =
      { mNbPairs := st.mNbPairs - 1
        mConcavePairsStartIndex := st.mConcavePairsStartIndex - 1
        mPairData := setSlot
          (setSlot st.mPairData index (st.mPairData (st.mConcavePairsStartIndex - 1)))
          (st.mConcavePairsStartIndex - 1) (st.mPairData (st.mNbPairs - 1))
        mMapPairIdToPairIndex := mapSet
          (mapSet (mapErase st.mMapPairIdToPairIndex (st.mPairData index).pairId)
            (st.mPairData (st.mConcavePairsStartIndex - 1)).pairId index)
          (st.mPairData (st.mNbPairs - 1)).pairId (st.mConcavePairsStartIndex - 1)
        mNextPairId := st.mNextPairId } := by
  have hne : ¬ (st.mNbPairs - 1 = index) := by omega
  unfold removePair destroyPair movePairToIndex
  rw [h]
  dsimp only
  rw [if_pos h1, if_neg h2, if_neg h3]
  simp only [setSlot_apply, if_neg hne]

-- ------------------------------------------------------------------
-- Preservation of the invariant by addPair.
-- ------------------------------------------------------------------

/-- Flipping the roles of the two records in the unordered-pair test. -/
theorem sameShapePair_flip {r r' : PairRecord} :
    sameShapePair r r'.proxyShape1 r'.proxyShape2 ↔
      sameShapePair r' r.proxyShape1 r.proxyShape2 := by
  unfold sameShapePair
  constructor
  · rintro (⟨ha, hb⟩ | ⟨ha, hb⟩)
    · exact Or.inl ⟨ha.symm, hb.symm⟩
    · exact Or.inr ⟨hb.symm, ha.symm⟩
  · rintro (⟨ha, hb⟩ | ⟨ha, hb⟩)
    · exact Or.inl ⟨ha.symm, hb.symm⟩
    · exact Or.inr ⟨hb.symm, ha.symm⟩

/-- The invariant survives inserting a fresh convex-vs-concave record at
the end of the array. -/
theorem WF_addPair_concaveAux {st : OverlappingPairs} {s1 s2 : ProxyShape} {a : Bool}
    {alg : Nat} (h : WF st)
    (hnone : ∀ i, i < st.mNbPairs → ¬ sameShapePair (st.mPairData i) s1.entity s2.entity) :
    WF { mNbPairs := st.mNbPairs + 1
         mConcavePairsStartIndex := st.mConcavePairsStartIndex
         mPairData := setSlot st.mPairData st.mNbPairs
           (newPairRecord st.mNextPairId s1 s2 a alg false)
         mMapPairIdToPairIndex :=
           mapSet st.mMapPairIdToPairIndex st.mNextPairId st.mNbPairs
         mNextPairId := st.mNextPairId + 1 } := by
  have hcle := h.csi_le
  constructor
  · dsimp only
    omega
  · intro i hi
    dsimp only at hi ⊢
    simp only [setSlot_apply]
    by_cases hin : i = st.mNbPairs
    · subst hin
      rw [if_pos rfl]
      simp only [newPairRecord]
      constructor
      · intro hfalse
        exact absurd hfalse (by simp)
      · intro hlt
        omega
    · rw [if_neg hin]
      exact h.partition_ok i (by omega)
  · intro p s
    dsimp only
    simp only [mapSet_apply, setSlot_apply]
    by_cases hp : p = st.mNextPairId
    · subst hp
      rw [if_pos rfl]
      constructor
      · intro hs
        have hs' : s = st.mNbPairs := (Option.some.inj hs).symm
        subst hs'
        refine ⟨by omega, ?_⟩
        rw [if_pos rfl]
        rfl
      · rintro ⟨hs1, hs2⟩
        by_cases hsn : s = st.mNbPairs
        · subst hsn; rfl
        · exfalso
          rw [if_neg hsn] at hs2
          have := h.fresh s (by omega)
          omega
    · rw [if_neg hp, h.map_ok p s]
      constructor
      · rintro ⟨hs1, hs2⟩
        refine ⟨by omega, ?_⟩
        rw [if_neg (by omega : s ≠ st.mNbPairs)]
        exact hs2
      · rintro ⟨hs1, hs2⟩
        by_cases hsn : s = st.mNbPairs
        · subst hsn
          rw [if_pos rfl] at hs2
          exact absurd hs2.symm hp
        · rw [if_neg hsn] at hs2
          exact ⟨by omega, hs2⟩
  · intro i hi
    dsimp only at hi ⊢
    simp only [setSlot_apply]
    by_cases hin : i = st.mNbPairs
    · rw [if_pos hin]
      simp [newPairRecord]
    · rw [if_neg hin]
      have := h.fresh i (by omega)
      omega
  · intro i j hi hj hij
    dsimp only at hi hj ⊢
    simp only [setSlot_apply]
    by_cases hin : i = st.mNbPairs <;> by_cases hjn : j = st.mNbPairs
    · exact absurd (hin.trans hjn.symm) hij
    · subst hin
      rw [if_pos rfl, if_neg hjn]
      intro hsame
      have := sameShapePair_flip.mp hsame
      simp only [newPairRecord] at this
      exact hnone j (by omega) this
    · subst hjn
      rw [if_neg hin, if_pos rfl]
      intro hsame
      simp only [newPairRecord] at hsame
      exact hnone i (by omega) hsame
    · rw [if_neg hin, if_neg hjn]
      exact h.nodup i j (by omega) (by omega) hij

/-- The invariant survives inserting a fresh convex-vs-convex record at
the boundary when no convex-vs-concave pair needs to move. -/
theorem WF_addPair_convexBoundaryAux {st : OverlappingPairs} {s1 s2 : ProxyShape}
    {a : Bool} {alg : Nat} (h : WF st)
    (hnone : ∀ i, i < st.mNbPairs → ¬ sameShapePair (st.mPairData i) s1.entity s2.entity)
    (hcn : st.mConcavePairsStartIndex = st.mNbPairs) :
    WF { mNbPairs := st.mNbPairs + 1
         mConcavePairsStartIndex := st.mConcavePairsStartIndex + 1
         mPairData := setSlot st.mPairData st.mConcavePairsStartIndex
           (newPairRecord st.mNextPairId s1 s2 a alg true)
         mMapPairIdToPairIndex :=
           mapSet st.mMapPairIdToPairIndex st.mNextPairId st.mConcavePairsStartIndex
         mNextPairId := st.mNextPairId + 1 } := by
  have hcle := h.csi_le
  constructor
  · dsimp only
    omega
  · intro i hi
    dsimp only at hi ⊢
    simp only [setSlot_apply]
    by_cases hin : i = st.mConcavePairsStartIndex
    · subst hin
      rw [if_pos rfl]
      simp only [newPairRecord]
      constructor
      · intro _
        omega
      · intro _
        trivial
    · rw [if_neg hin]
      have hi' : i < st.mNbPairs := by omega
      rw [h.partition_ok i hi']
      omega
  · intro p s
    dsimp only
    simp only [mapSet_apply, setSlot_apply]
    by_cases hp : p = st.mNextPairId
    · subst hp
      rw [if_pos rfl]
      constructor
      · intro hs
        have hs' : s = st.mConcavePairsStartIndex := (Option.some.inj hs).symm
        subst hs'
        refine ⟨by omega, ?_⟩
        rw [if_pos rfl]
        rfl
      · rintro ⟨hs1, hs2⟩
        by_cases hsn : s = st.mConcavePairsStartIndex
        · subst hsn; rfl
        · exfalso
          rw [if_neg hsn] at hs2
          have := h.fresh s (by omega)
          omega
    · rw [if_neg hp, h.map_ok p s]
      constructor
      · rintro ⟨hs1, hs2⟩
        refine ⟨by omega, ?_⟩
        rw [if_neg (by omega : s ≠ st.mConcavePairsStartIndex)]
        exact hs2
      · rintro ⟨hs1, hs2⟩
        by_cases hsn : s = st.mConcavePairsStartIndex
        · subst hsn
          rw [if_pos rfl] at hs2
          exact absurd hs2.symm hp
        · rw [if_neg hsn] at hs2
          exact ⟨by omega, hs2⟩
  · intro i hi
    dsimp only at hi ⊢
    simp only [setSlot_apply]
    by_cases hin : i = st.mConcavePairsStartIndex
    · rw [if_pos hin]
      simp [newPairRecord]
    · rw [if_neg hin]
      have := h.fresh i (by omega)
      omega
  · intro i j hi hj hij
    dsimp only at hi hj ⊢
    simp only [setSlot_apply]
    by_cases hin : i = st.mConcavePairsStartIndex <;>
      by_cases hjn : j = st.mConcavePairsStartIndex
    · exact absurd (hin.trans hjn.symm) hij
    · subst hin
      rw [if_pos rfl, if_neg hjn]
      intro hsame
      have := sameShapePair_flip.mp hsame
      simp only [newPairRecord] at this
      exact hnone j (by omega) this
    · subst hjn
      rw [if_neg hin, if_pos rfl]
      intro hsame
      simp only [newPairRecord] at hsame
      exact hnone i (by omega) hsame
    · rw [if_neg hin, if_neg hjn]
      exact h.nodup i j (by omega) (by omega) hij

/-- The invariant survives inserting a fresh convex-vs-convex record at
the boundary after the first convex-vs-concave record moved to the end of
the array. -/
theorem WF_addPair_convexMoveAux {st : OverlappingPairs} {s1 s2 : ProxyShape}
    {a : Bool} {alg : Nat} (h : WF st)
    (hnone : ∀ i, i < st.mNbPairs → ¬ sameShapePair (st.mPairData i) s1.entity s2.entity)
    (hcn : st.mConcavePairsStartIndex < st.mNbPairs) :
    WF { mNbPairs := st.mNbPairs + 1
         mConcavePairsStartIndex := st.mConcavePairsStartIndex + 1
         mPairData := setSlot
           (setSlot st.mPairData st.mNbPairs (st.mPairData st.mConcavePairsStartIndex))
           st.mConcavePairsStartIndex
           (newPairRecord st.mNextPairId s1 s2 a alg true)
         mMapPairIdToPairIndex := mapSet
           (mapSet st.mMapPairIdToPairIndex
             (st.mPairData st.mConcavePairsStartIndex).pairId st.mNbPairs)
           st.mNextPairId st.mConcavePairsStartIndex
         mNextPairId := st.mNextPairId + 1 } := by
  have hcle := h.csi_le
  have hcne : st.mConcavePairsStartIndex ≠ st.mNbPairs := by omega
  constructor
  · dsimp only
    omega
  · intro i hi
    dsimp only at hi ⊢
    simp only [setSlot_apply]
    by_cases hic : i = st.mConcavePairsStartIndex
    · rw [if_pos hic]
      simp only [newPairRecord]
      constructor
      · intro _
        omega
      · intro _
        trivial
    · rw [if_neg hic]
      by_cases hin : i = st.mNbPairs
      · rw [if_pos hin]
        rw [h.partition_ok st.mConcavePairsStartIndex hcn]
        constructor <;> intro <;> omega
      · rw [if_neg hin]
        rw [h.partition_ok i (by omega)]
        omega
  · intro p s
    dsimp only
    simp only [mapSet_apply, setSlot_apply]
    by_cases hp : p = st.mNextPairId
    · subst hp
      rw [if_pos rfl]
      constructor
      · intro hs
        have hs' : s = st.mConcavePairsStartIndex := (Option.some.inj hs).symm
        subst hs'
        refine ⟨by omega, ?_⟩
        rw [if_pos rfl]
        rfl
      · rintro ⟨hs1, hs2⟩
        by_cases hsc : s = st.mConcavePairsStartIndex
        · subst hsc; rfl
        · exfalso
          rw [if_neg hsc] at hs2
          by_cases hsn : s = st.mNbPairs
          · rw [if_pos hsn] at hs2
            have := h.fresh st.mConcavePairsStartIndex hcn
            omega
          · rw [if_neg hsn] at hs2
            have := h.fresh s (by omega)
            omega
    · rw [if_neg hp]
      by_cases hpc : p = (st.mPairData st.mConcavePairsStartIndex).pairId
      · rw [if_pos hpc]
        constructor
        · intro hs
          have hs' : s = st.mNbPairs := (Option.some.inj hs).symm
          subst hs'
          refine ⟨by omega, ?_⟩
          rw [if_neg hcne.symm, if_pos rfl]
          exact hpc.symm
        · rintro ⟨hs1, hs2⟩
          by_cases hsc : s = st.mConcavePairsStartIndex
          · exfalso
            rw [if_pos hsc] at hs2
            exact hp hs2.symm
          · rw [if_neg hsc] at hs2
            by_cases hsn : s = st.mNbPairs
            · subst hsn; rfl
            · exfalso
              rw [if_neg hsn] at hs2
              have : s = st.mConcavePairsStartIndex :=
                h.pairId_inj (by omega) hcn (hs2.trans hpc)
              exact hsc this
      · rw [if_neg hpc, h.map_ok p s]
        constructor
        · rintro ⟨hs1, hs2⟩
          have hsc : s ≠ st.mConcavePairsStartIndex := by
            intro hsc
            exact hpc (hsc ▸ hs2).symm
          refine ⟨by omega, ?_⟩
          rw [if_neg hsc, if_neg (by omega : s ≠ st.mNbPairs)]
          exact hs2
        · rintro ⟨hs1, hs2⟩
          by_cases hsc : s = st.mConcavePairsStartIndex
          · exfalso
            rw [if_pos hsc] at hs2
            exact hp hs2.symm
          · rw [if_neg hsc] at hs2
            by_cases hsn : s = st.mNbPairs
            · exfalso
              rw [if_pos hsn] at hs2
              exact hpc hs2.symm
            · rw [if_neg hsn] at hs2
              exact ⟨by omega, hs2⟩
  · intro i hi
    dsimp only at hi ⊢
    simp only [setSlot_apply]
    by_cases hic : i = st.mConcavePairsStartIndex
    · rw [if_pos hic]
      simp [newPairRecord]
    · rw [if_neg hic]
      by_cases hin : i = st.mNbPairs
      · rw [if_pos hin]
        have := h.fresh st.mConcavePairsStartIndex hcn
        omega
      · rw [if_neg hin]
        have := h.fresh i (by omega)
        omega
  · intro i j hi hj hij
    dsimp only at hi hj ⊢
    simp only [setSlot_apply]
    by_cases hic : i = st.mConcavePairsStartIndex <;>
      by_cases hjc : j = st.mConcavePairsStartIndex
    · exact absurd (hic.trans hjc.symm) hij
    · rw [if_pos hic, if_neg hjc]
      by_cases hjn : j = st.mNbPairs
      · rw [if_pos hjn]
        intro hsame
        have := sameShapePair_flip.mp hsame
        simp only [newPairRecord] at this
        exact hnone st.mConcavePairsStartIndex hcn this
      · rw [if_neg hjn]
        intro hsame
        have := sameShapePair_flip.mp hsame
        simp only [newPairRecord] at this
        exact hnone j (by omega) this
    · rw [if_neg hic, if_pos hjc]
      by_cases hin : i = st.mNbPairs
      · rw [if_pos hin]
        intro hsame
        simp only [newPairRecord] at hsame
        exact hnone st.mConcavePairsStartIndex hcn hsame
      · rw [if_neg hin]
        intro hsame
        simp only [newPairRecord] at hsame
        exact hnone i (by omega) hsame
    · rw [if_neg hic, if_neg hjc]
      by_cases hin : i = st.mNbPairs <;> by_cases hjn : j = st.mNbPairs
      · exact absurd (hin.trans hjn.symm) hij
      · rw [if_pos hin, if_neg hjn]
        exact h.nodup st.mConcavePairsStartIndex j hcn (by omega) (by omega)
      · rw [if_neg hin, if_pos hjn]
        exact h.nodup i st.mConcavePairsStartIndex (by omega) hcn (by omega)
      · rw [if_neg hin, if_neg hjn]
        exact h.nodup i j (by omega) (by omega) hij

/-- addPair preserves the invariant. -/
theorem WF.addPair {st : OverlappingPairs} (h : WF st) (s1 s2 : ProxyShape)
    (a : Bool) (alg : Nat) : WF (RP3D.addPair st s1 s2 a alg).2 := by
  cases hfind : findExistingSlot st s1.entity s2.entity with
  | some i =>
    rw [addPair_found hfind]
    exact h
  | none =>
    have hnone := findExistingSlot_eq_none.mp hfind
    cases hcvc : s1.isConvex && s2.isConvex with
    | false =>
      rw [addPair_concave hfind hcvc]
      exact WF_addPair_concaveAux h hnone
    | true =>
      by_cases hcn : st.mConcavePairsStartIndex = st.mNbPairs
      · rw [addPair_convex_boundary hfind hcvc hcn]
        exact WF_addPair_convexBoundaryAux h hnone hcn
      · rw [addPair_convex_move hfind hcvc hcn]
        exact WF_addPair_convexMoveAux h hnone (by have := h.csi_le; omega)

-- ------------------------------------------------------------------
-- Preservation of the invariant by removePair.
-- ------------------------------------------------------------------

/-- The invariant survives popping the last record (slot u = mNbPairs - 1)
with a possibly adjusted boundary csi'. -/
theorem WF_removeLast {st : OverlappingPairs} (h : WF st) (u csi' : Nat)
    (hu : u = st.mNbPairs - 1) (hn : 0 < st.mNbPairs)
    (hcle' : csi' ≤ st.mNbPairs - 1)
    (hpartB : ∀ i, i < st.mNbPairs - 1 →
      ((st.mPairData i).isConvexVsConvex = true ↔ i < csi')) :
    WF { mNbPairs := st.mNbPairs - 1
         mConcavePairsStartIndex := csi'
         mPairData := st.mPairData
         mMapPairIdToPairIndex :=
           mapErase st.mMapPairIdToPairIndex (st.mPairData u).pairId
         mNextPairId := st.mNextPairId } := by
  subst hu
  constructor
  · dsimp only
    exact hcle'
  · intro i hi
    dsimp only at hi ⊢
    exact hpartB i hi
  · intro p s
    dsimp only
    simp only [mapErase_apply]
    by_cases hp : p = (st.mPairData (st.mNbPairs - 1)).pairId
    · rw [if_pos hp]
      constructor
      · intro hs
        exact absurd hs (by simp)
      · rintro ⟨hs1, hs2⟩
        exfalso
        have : s = st.mNbPairs - 1 :=
          h.pairId_inj (by omega) (by omega) (hs2.trans hp)
        omega
    · rw [if_neg hp, h.map_ok p s]
      constructor
      · rintro ⟨hs1, hs2⟩
        have hsn : s ≠ st.mNbPairs - 1 := by
          intro he
          subst he
          exact hp hs2.symm
        exact ⟨by omega, hs2⟩
      · rintro ⟨hs1, hs2⟩
        exact ⟨by omega, hs2⟩
  · intro i hi
    dsimp only at hi ⊢
    exact h.fresh i (by omega)
  · intro i j hi hj hij
    dsimp only at hi hj ⊢
    exact h.nodup i j (by omega) (by omega) hij

/-- The invariant survives moving the last record (slot u = mNbPairs - 1)
into a lower slot t and popping, with a possibly adjusted boundary. -/
theorem WF_removeSwap {st : OverlappingPairs} (h : WF st) (t u csi' : Nat)
    (hu : u = st.mNbPairs - 1) (ht : t < st.mNbPairs - 1)
    (hcle' : csi' ≤ st.mNbPairs - 1)
    (hpartA : (st.mPairData u).isConvexVsConvex = true ↔ t < csi')
    (hpartB : ∀ i, i < st.mNbPairs - 1 → i ≠ t →
      ((st.mPairData i).isConvexVsConvex = true ↔ i < csi')) :
    WF { mNbPairs := st.mNbPairs - 1
         mConcavePairsStartIndex := csi'
         mPairData := setSlot st.mPairData t (st.mPairData u)
         mMapPairIdToPairIndex := mapSet
           (mapErase st.mMapPairIdToPairIndex (st.mPairData t).pairId)
           (st.mPairData u).pairId t
         mNextPairId := st.mNextPairId } := by
  subst hu
  have hn : 0 < st.mNbPairs := by omega
  have htn : t ≠ st.mNbPairs - 1 := by omega
  have hdist : (st.mPairData (st.mNbPairs - 1)).pairId ≠ (st.mPairData t).pairId := by
    intro he
    exact htn (h.pairId_inj (by omega) (by omega) he).symm
  constructor
  · dsimp only
    exact hcle'
  · intro i hi
    dsimp only at hi ⊢
    simp only [setSlot_apply]
    by_cases hit : i = t
    · subst hit
      rw [if_pos rfl]
      exact hpartA
    · rw [if_neg hit]
      exact hpartB i hi hit
  · intro p s
    dsimp only
    simp only [mapSet_apply, mapErase_apply, setSlot_apply]
    by_cases hp : p = (st.mPairData (st.mNbPairs - 1)).pairId
    · rw [if_pos hp]
      constructor
      · intro hs
        have hs' : s = t := (Option.some.inj hs).symm
        subst hs'
        refine ⟨ht, ?_⟩
        rw [if_pos rfl, hp]
      · rintro ⟨hs1, hs2⟩
        by_cases hst : s = t
        · subst hst
          rfl
        · exfalso
          rw [if_neg hst] at hs2
          have : s = st.mNbPairs - 1 :=
            h.pairId_inj (by omega) (by omega) (hs2.trans hp)
          omega
    · rw [if_neg hp]
      by_cases hpt : p = (st.mPairData t).pairId
      · rw [if_pos hpt]
        constructor
        · intro hs
          exact absurd hs (by simp)
        · rintro ⟨hs1, hs2⟩
          exfalso
          by_cases hst : s = t
          · rw [if_pos hst] at hs2
            exact hp hs2.symm
          · rw [if_neg hst] at hs2
            exact hst (h.pairId_inj (by omega) (by omega) (hs2.trans hpt))
      · rw [if_neg hpt, h.map_ok p s]
        constructor
        · rintro ⟨hs1, hs2⟩
          have hst : s ≠ t := by
            intro he
            subst he
            exact hpt hs2.symm
          have hsn : s ≠ st.mNbPairs - 1 := by
            intro he
            subst he
            exact hp hs2.symm
          refine ⟨by omega, ?_⟩
          rw [if_neg hst]
          exact hs2
        · rintro ⟨hs1, hs2⟩
          by_cases hst : s = t
          · rw [if_pos hst] at hs2
            exact absurd hs2.symm hp
          · rw [if_neg hst] at hs2
            exact ⟨by omega, hs2⟩
  · intro i hi
    dsimp only at hi ⊢
    simp only [setSlot_apply]
    by_cases hit : i = t
    · rw [if_pos hit]
      exact h.fresh _ (by omega)
    · rw [if_neg hit]
      exact h.fresh i (by omega)
  · intro i j hi hj hij
    dsimp only at hi hj ⊢
    simp only [setSlot_apply]
    by_cases hit : i = t <;> by_cases hjt : j = t
    · exact absurd (hit.trans hjt.symm) hij
    · rw [if_pos hit, if_neg hjt]
      exact h.nodup (st.mNbPairs - 1) j (by omega) (by omega) (by omega)
    · rw [if_neg hit, if_pos hjt]
      exact h.nodup i (st.mNbPairs - 1) (by omega) (by omega) (by omega)
    · rw [if_neg hit, if_neg hjt]
      exact h.nodup i j (by omega) (by omega) hij

/-- The invariant survives removing a convex-vs-convex record that is not
the last of its partition while convex-vs-concave records exist: the last
convex record fills its slot, the last record of the array fills the
vacated boundary slot, and the boundary decrements. -/
theorem WF_removeSwapFill {st : OverlappingPairs} (h : WF st) {index : Nat}
    (hidx : index < st.mConcavePairsStartIndex - 1)
    (hc0 : 0 < st.mConcavePairsStartIndex)
    (hcn : st.mConcavePairsStartIndex < st.mNbPairs) :
    WF { mNbPairs := st.mNbPairs - 1
         mConcavePairsStartIndex := st.mConcavePairsStartIndex - 1
         mPairData := setSlot
           (setSlot st.mPairData index (st.mPairData (st.mConcavePairsStartIndex - 1)))
           (st.mConcavePairsStartIndex - 1) (st.mPairData (st.mNbPairs - 1))
         mMapPairIdToPairIndex := mapSet
           (mapSet (mapErase st.mMapPairIdToPairIndex (st.mPairData index).pairId)
             (st.mPairData (st.mConcavePairsStartIndex - 1)).pairId index)
           (st.mPairData (st.mNbPairs - 1)).pairId (st.mConcavePairsStartIndex - 1)
         mNextPairId := st.mNextPairId } := by
  have hd1 : (st.mPairData (st.mConcavePairsStartIndex - 1)).pairId ≠
      (st.mPairData index).pairId := by
    intro he
    have := h.pairId_inj (j := index) (by omega) (by omega) he
    omega
  have hd2 : (st.mPairData (st.mNbPairs - 1)).pairId ≠
      (st.mPairData index).pairId := by
    intro he
    have := h.pairId_inj (j := index) (by omega) (by omega) he
    omega
  have hd3 : (st.mPairData (st.mNbPairs - 1)).pairId ≠
      (st.mPairData (st.mConcavePairsStartIndex - 1)).pairId := by
    intro he
    have := h.pairId_inj (by omega) (j := st.mConcavePairsStartIndex - 1) (by omega) he
    omega
  constructor
  · dsimp only
    omega
  · intro i hi
    dsimp only at hi ⊢
    simp only [setSlot_apply]
    by_cases hia : i = st.mConcavePairsStartIndex - 1
    · rw [if_pos hia, h.partition_ok (st.mNbPairs - 1) (by omega)]
      omega
    · rw [if_neg hia]
      by_cases hib : i = index
      · rw [if_pos hib, h.partition_ok (st.mConcavePairsStartIndex - 1) (by omega)]
        omega
      · rw [if_neg hib, h.partition_ok i (by omega)]
        omega
  · intro p s
    dsimp only
    simp only [mapSet_apply, mapErase_apply, setSlot_apply]
    by_cases hp1 : p = (st.mPairData (st.mNbPairs - 1)).pairId
    · rw [if_pos hp1]
      constructor
      · intro hs
        have hs' : s = st.mConcavePairsStartIndex - 1 := (Option.some.inj hs).symm
        subst hs'
        refine ⟨by omega, ?_⟩
        rw [if_pos rfl, hp1]
      · rintro ⟨hs1, hs2⟩
        by_cases hsa : s = st.mConcavePairsStartIndex - 1
        · subst hsa
          rfl
        · exfalso
          rw [if_neg hsa] at hs2
          by_cases hsb : s = index
          · rw [if_pos hsb] at hs2
            exact hd3 (hs2.trans hp1).symm
          · rw [if_neg hsb] at hs2
            have : s = st.mNbPairs - 1 :=
              h.pairId_inj (by omega) (by omega) (hs2.trans hp1)
            omega
    · rw [if_neg hp1]
      by_cases hp2 : p = (st.mPairData (st.mConcavePairsStartIndex - 1)).pairId
      · rw [if_pos hp2]
        constructor
        · intro hs
          have hs' : s = index := (Option.some.inj hs).symm
          refine ⟨by omega, ?_⟩
          rw [hs', if_neg (by omega : index ≠ st.mConcavePairsStartIndex - 1),
            if_pos rfl, hp2]
        · rintro ⟨hs1, hs2⟩
          by_cases hsa : s = st.mConcavePairsStartIndex - 1
          · exfalso
            rw [if_pos hsa] at hs2
            exact hp1 hs2.symm
          · rw [if_neg hsa] at hs2
            by_cases hsb : s = index
            · subst hsb
              rfl
            · exfalso
              rw [if_neg hsb] at hs2
              have : s = st.mConcavePairsStartIndex - 1 :=
                h.pairId_inj (by omega) (by omega) (hs2.trans hp2)
              exact hsa this
      · rw [if_neg hp2]
        by_cases hp3 : p = (st.mPairData index).pairId
        · rw [if_pos hp3]
          constructor
          · intro hs
            exact absurd hs (by simp)
          · rintro ⟨hs1, hs2⟩
            exfalso
            by_cases hsa : s = st.mConcavePairsStartIndex - 1
            · rw [if_pos hsa] at hs2
              exact hp1 hs2.symm
            · rw [if_neg hsa] at hs2
              by_cases hsb : s = index
              · rw [if_pos hsb] at hs2
                exact hp2 hs2.symm
              · rw [if_neg hsb] at hs2
                exact hsb (h.pairId_inj (by omega) (by omega) (hs2.trans hp3))
        · rw [if_neg hp3, h.map_ok p s]
          constructor
          · rintro ⟨hs1, hs2⟩
            have hsa : s ≠ st.mConcavePairsStartIndex - 1 := by
              intro he
              subst he
              exact hp2 hs2.symm
            have hsb : s ≠ index := by
              intro he
              subst he
              exact hp3 hs2.symm
            have hsc : s ≠ st.mNbPairs - 1 := by
              intro he
              subst he
              exact hp1 hs2.symm
            refine ⟨by omega, ?_⟩
            rw [if_neg hsa, if_neg hsb]
            exact hs2
          · rintro ⟨hs1, hs2⟩
            by_cases hsa : s = st.mConcavePairsStartIndex - 1
            · rw [if_pos hsa] at hs2
              exact absurd hs2.symm hp1
            · rw [if_neg hsa] at hs2
              by_cases hsb : s = index
              · rw [if_pos hsb] at hs2
                exact absurd hs2.symm hp2
              · rw [if_neg hsb] at hs2
                exact ⟨by omega, hs2⟩
  · intro i hi
    dsimp only at hi ⊢
    simp only [setSlot_apply]
    by_cases hia : i = st.mConcavePairsStartIndex - 1
    · rw [if_pos hia]
      exact h.fresh _ (by omega)
    · rw [if_neg hia]
      by_cases hib : i = index
      · rw [if_pos hib]
        exact h.fresh _ (by omega)
      · rw [if_neg hib]
        exact h.fresh i (by omega)
  · intro i j hi hj hij
    dsimp only at hi hj ⊢
    simp only [setSlot_apply]
    by_cases hia : i = st.mConcavePairsStartIndex - 1 <;>
      by_cases hja : j = st.mConcavePairsStartIndex - 1
    · exact absurd (hia.trans hja.symm) hij
    · rw [if_pos hia, if_neg hja]
      by_cases hjb : j = index
      · rw [if_pos hjb]
        exact h.nodup (st.mNbPairs - 1) (st.mConcavePairsStartIndex - 1)
          (by omega) (by omega) (by omega)
      · rw [if_neg hjb]
        exact h.nodup (st.mNbPairs - 1) j (by omega) (by omega) (by omega)
    · rw [if_neg hia, if_pos hja]
      by_cases hib : i = index
      · rw [if_pos hib]
        exact h.nodup (st.mConcavePairsStartIndex - 1) (st.mNbPairs - 1)
          (by omega) (by omega) (by omega)
      · rw [if_neg hib]
        exact h.nodup i (st.mNbPairs - 1) (by omega) (by omega) (by omega)
    · rw [if_neg hia, if_neg hja]
      by_cases hib : i = index <;> by_cases hjb : j = index
      · exact absurd (hib.trans hjb.symm) hij
      · rw [if_pos hib, if_neg hjb]
        exact h.nodup (st.mConcavePairsStartIndex - 1) j (by omega) (by omega) (by omega)
      · rw [if_neg hib, if_pos hjb]
        exact h.nodup i (st.mConcavePairsStartIndex - 1) (by omega) (by omega) (by omega)
      · rw [if_neg hib, if_neg hjb]
        exact h.nodup i j (by omega) (by omega) hij

/-- removePair preserves the invariant. -/
theorem WF.removePair {st : OverlappingPairs} (h : WF st) (pid : Nat) :
    WF (RP3D.removePair st pid) := by
  cases hlook : st.mMapPairIdToPairIndex pid with
  | none =>
    rw [removePair_notFound hlook]
    exact h
  | some index =>
    obtain ⟨hidx, hpid⟩ := (h.map_ok pid index).mp hlook
    have hcle := h.csi_le
    by_cases h1 : index < st.mConcavePairsStartIndex
    · by_cases h2 : index = st.mConcavePairsStartIndex - 1
      · by_cases h3 : st.mConcavePairsStartIndex = st.mNbPairs
        · rw [removePair_convex_soleBoundary hlook h1 h2 h3]
          exact WF_removeLast h index _ (by omega) (by omega) (by omega)
            (fun i hi => by rw [h.partition_ok i (by omega)]; omega)
        · rw [removePair_convex_boundary_fill hlook h1 h2 h3, h2]
          refine WF_removeSwap h _ _ _ rfl (by omega) (by omega) ?_ ?_
          · rw [h.partition_ok (st.mNbPairs - 1) (by omega)]
            omega
          · intro i hi hit
            rw [h.partition_ok i (by omega)]
            omega
      · by_cases h3 : st.mConcavePairsStartIndex = st.mNbPairs
        · rw [removePair_convex_swap_sole hlook h1 h2 h3]
          refine WF_removeSwap h index _ _ (by omega) (by omega) (by omega) ?_ ?_
          · rw [h.partition_ok (st.mConcavePairsStartIndex - 1) (by omega)]
            omega
          · intro i hi hit
            rw [h.partition_ok i (by omega)]
            omega
        · rw [removePair_convex_swap_fill hlook h1 h2 h3 hcle]
          exact WF_removeSwapFill h (by omega) (by omega) (by omega)
    · by_cases h2 : index = st.mNbPairs - 1
      · rw [removePair_concave_last hlook h1 h2]
        exact WF_removeLast h index _ h2 (by omega) (by omega)
          (fun i hi => h.partition_ok i (by omega))
      · rw [removePair_concave_swap hlook h1 h2]
        refine WF_removeSwap h index _ _ rfl (by omega) (by omega) ?_ ?_
        · rw [h.partition_ok (st.mNbPairs - 1) (by omega)]
          omega
        · intro i hi hit
          rw [h.partition_ok i (by omega)]

/-- Every operation preserves the invariant. -/
theorem WF.applyOp {st : OverlappingPairs} (h : WF st) (op : PairOp) :
    WF (RP3D.applyOp st op) := by
  cases op with
  | add s1 s2 a alg => exact h.addPair s1 s2 a alg
  | remove pid => exact h.removePair pid

/-- Every operation sequence preserves the invariant. -/
theorem WF.runOps {st : OverlappingPairs} (h : WF st) (ops : List PairOp) :
    WF (RP3D.runOps st ops) := by
  induction ops generalizing st with
  | nil => exact h
  | cons op ops ih => exact ih (h.applyOp op)

-- ------------------------------------------------------------------
-- Preservation of a live record by operations not removing it.
-- ------------------------------------------------------------------

/-- One operation that does not remove the live pair p keeps p resolvable
and keeps its whole record (every logical field) unchanged, possibly at a
new slot. -/
theorem liveRecord_applyOp {st : OverlappingPairs} (h : WF st) {p i : Nat}
    (hlive : st.mMapPairIdToPairIndex p = some i) {op : PairOp}
    (hop : op ≠ PairOp.remove p) :
    ∃ j, (applyOp st op).mMapPairIdToPairIndex p = some j ∧
      (applyOp st op).mPairData j = st.mPairData i := by
  obtain ⟨hi, hpid⟩ := (h.map_ok p i).mp hlive
  cases op with
  | add s1 s2 a alg =>
    have hpx : p ≠ st.mNextPairId := by
      have := h.fresh i hi
      omega
    cases hfind : findExistingSlot st s1.entity s2.entity with
    | some slot =>
      simp only [applyOp, addPair_found hfind]
      exact ⟨i, hlive, rfl⟩
    | none =>
      cases hcvc : s1.isConvex && s2.isConvex with
      | false =>
        simp only [applyOp, addPair_concave hfind hcvc]
        refine ⟨i, ?_, ?_⟩
        · simp only [mapSet_apply]
          rw [if_neg hpx]
          exact hlive
        · simp only [setSlot_apply]
          rw [if_neg (by omega : i ≠ st.mNbPairs)]
      | true =>
        by_cases hcn : st.mConcavePairsStartIndex = st.mNbPairs
        · simp only [applyOp, addPair_convex_boundary hfind hcvc hcn]
          refine ⟨i, ?_, ?_⟩
          · simp only [mapSet_apply]
            rw [if_neg hpx]
            exact hlive
          · simp only [setSlot_apply]
            rw [if_neg (by omega : i ≠ st.mConcavePairsStartIndex)]
        · simp only [applyOp, addPair_convex_move hfind hcvc hcn]
          have hc : st.mConcavePairsStartIndex < st.mNbPairs := by
            have := h.csi_le
            omega
          by_cases hic : i = st.mConcavePairsStartIndex
          · refine ⟨st.mNbPairs, ?_, ?_⟩
            · simp only [mapSet_apply]
              rw [if_neg hpx, if_pos (by rw [← hic]; exact hpid.symm)]
            · simp only [setSlot_apply]
              rw [if_neg (by omega : st.mNbPairs ≠ st.mConcavePairsStartIndex),
                if_pos trivial, hic]
          · have hpc : p ≠ (st.mPairData st.mConcavePairsStartIndex).pairId := by
              intro he
              exact hic (h.pairId_inj hi hc (hpid.trans he))
            refine ⟨i, ?_, ?_⟩
            · simp only [mapSet_apply]
              rw [if_neg hpx, if_neg hpc]
              exact hlive
            · simp only [setSlot_apply]
              rw [if_neg hic, if_neg (by omega : i ≠ st.mNbPairs)]
  | remove q =>
    have hq : q ≠ p := by
      intro he
      exact hop (by rw [he])
    cases hlookq : st.mMapPairIdToPairIndex q with
    | none =>
      simp only [applyOp, removePair_notFound hlookq]
      exact ⟨i, hlive, rfl⟩
    | some index =>
      obtain ⟨hidx, hqid⟩ := (h.map_ok q index).mp hlookq
      have hii : i ≠ index := by
        intro he
        subst he
        exact hq (hqid.symm.trans hpid)
      have hpq : p ≠ (st.mPairData index).pairId := by
        rw [hqid]
        exact fun he => hq he.symm
      have hcle := h.csi_le
      by_cases h1 : index < st.mConcavePairsStartIndex
      · by_cases h2 : index = st.mConcavePairsStartIndex - 1
        · by_cases h3 : st.mConcavePairsStartIndex = st.mNbPairs
          · simp only [applyOp, removePair_convex_soleBoundary hlookq h1 h2 h3]
            refine ⟨i, ?_, rfl⟩
            simp only [mapErase_apply]
            rw [if_neg hpq]
            exact hlive
          · simp only [applyOp, removePair_convex_boundary_fill hlookq h1 h2 h3]
            by_cases hin : i = st.mNbPairs - 1
            · refine ⟨st.mConcavePairsStartIndex - 1, ?_, ?_⟩
              · simp only [mapSet_apply, mapErase_apply]
                rw [if_pos (by rw [← hin]; exact hpid.symm)]
              · simp only [setSlot_apply]
                rw [if_pos trivial, hin]
            · have hpn : p ≠ (st.mPairData (st.mNbPairs - 1)).pairId := by
                intro he
                exact hin (h.pairId_inj hi (by omega) (hpid.trans he))
              refine ⟨i, ?_, ?_⟩
              · simp only [mapSet_apply, mapErase_apply]
                rw [if_neg hpn, if_neg hpq]
                exact hlive
              · simp only [setSlot_apply]
                rw [if_neg (show i ≠ st.mConcavePairsStartIndex - 1 by omega)]
        · by_cases h3 : st.mConcavePairsStartIndex = st.mNbPairs
          · simp only [applyOp, removePair_convex_swap_sole hlookq h1 h2 h3]
            by_cases hic : i = st.mConcavePairsStartIndex - 1
            · refine ⟨index, ?_, ?_⟩
              · simp only [mapSet_apply, mapErase_apply]
                rw [if_pos (by rw [← hic]; exact hpid.symm)]
              · simp only [setSlot_apply]
                rw [if_pos trivial, hic]
            · have hpc : p ≠ (st.mPairData (st.mConcavePairsStartIndex - 1)).pairId := by
                intro he
                exact hic (h.pairId_inj hi (by omega) (hpid.trans he))
              refine ⟨i, ?_, ?_⟩
              · simp only [mapSet_apply, mapErase_apply]
                rw [if_neg hpc, if_neg hpq]
                exact hlive
              · simp only [setSlot_apply]
                rw [if_neg hii]
          · simp only [applyOp, removePair_convex_swap_fill hlookq h1 h2 h3 hcle]
            by_cases hin : i = st.mNbPairs - 1
            · refine ⟨st.mConcavePairsStartIndex - 1, ?_, ?_⟩
              · simp only [mapSet_apply, mapErase_apply]
                rw [if_pos (by rw [← hin]; exact hpid.symm)]
              · simp only [setSlot_apply]
                rw [if_pos trivial, hin]
            · have hpn : p ≠ (st.mPairData (st.mNbPairs - 1)).pairId := by
                intro he
                exact hin (h.pairId_inj hi (by omega) (hpid.trans he))
              by_cases hic : i = st.mConcavePairsStartIndex - 1
              · refine ⟨index, ?_, ?_⟩
                · simp only [mapSet_apply, mapErase_apply]
                  rw [if_neg hpn, if_pos (by rw [← hic]; exact hpid.symm)]
                · simp only [setSlot_apply]
                  rw [if_neg h2, if_pos trivial, hic]
              · have hpc : p ≠ (st.mPairData (st.mConcavePairsStartIndex - 1)).pairId := by
                  intro he
                  exact hic (h.pairId_inj hi (by omega) (hpid.trans he))
                refine ⟨i, ?_, ?_⟩
                · simp only [mapSet_apply, mapErase_apply]
                  rw [if_neg hpn, if_neg hpc, if_neg hpq]
                  exact hlive
                · simp only [setSlot_apply]
                  rw [if_neg hic, if_neg hii]
      · by_cases h2 : index = st.mNbPairs - 1
        · simp only [applyOp, removePair_concave_last hlookq h1 h2]
          refine ⟨i, ?_, rfl⟩
          simp only [mapErase_apply]
          rw [if_neg hpq]
          exact hlive
        · simp only [applyOp, removePair_concave_swap hlookq h1 h2]
          by_cases hin : i = st.mNbPairs - 1
          · refine ⟨index, ?_, ?_⟩
            · simp only [mapSet_apply, mapErase_apply]
              rw [if_pos (by rw [← hin]; exact hpid.symm)]
            · simp only [setSlot_apply]
              rw [if_pos trivial, hin]
          · have hpn : p ≠ (st.mPairData (st.mNbPairs - 1)).pairId := by
              intro he
              exact hin (h.pairId_inj hi (by omega) (hpid.trans he))
            refine ⟨i, ?_, ?_⟩
            · simp only [mapSet_apply, mapErase_apply]
              rw [if_neg hpn, if_neg hpq]
              exact hlive
            · simp only [setSlot_apply]
              rw [if_neg hii]

/-- A sequence of operations none of which removes the live pair p keeps
p resolvable with its whole record unchanged. -/
theorem liveRecord_runOps {st : OverlappingPairs} (h : WF st) {p i : Nat}
    (hlive : st.mMapPairIdToPairIndex p = some i) {ops : List PairOp}
    (hops : ∀ op ∈ ops, op ≠ PairOp.remove p) :
    ∃ j, (runOps st ops).mMapPairIdToPairIndex p = some j ∧
      (runOps st ops).mPairData j = st.mPairData i := by
  induction ops generalizing st i with
  | nil => exact ⟨i, hlive, rfl⟩
  | cons op ops ih =>
    obtain ⟨j, hj1, hj2⟩ := liveRecord_applyOp h hlive (hops op (by simp))
    obtain ⟨k, hk1, hk2⟩ :=
      ih (h.applyOp op) hj1 (fun o ho => hops o (List.mem_cons_of_mem _ ho))
    exact ⟨k, hk1, hk2.trans hj2⟩

-- ------------------------------------------------------------------
-- Helpers for the duplicate-insertion and counting claims.
-- ------------------------------------------------------------------

/-- Two records holding the same unordered shape pair hold each other's
shape pair. -/
theorem sameShapePair_trans {r r' : PairRecord} {e1 e2 : Entity}
    (h1 : sameShapePair r e1 e2) (h2 : sameShapePair r' e1 e2) :
    sameShapePair r r'.proxyShape1 r'.proxyShape2 := by
  rcases h1 with ⟨a1, b1⟩ | ⟨a1, b1⟩ <;> rcases h2 with ⟨a2, b2⟩ | ⟨a2, b2⟩
  · exact Or.inl ⟨a1.trans a2.symm, b1.trans b2.symm⟩
  · exact Or.inr ⟨a1.trans b2.symm, b1.trans a2.symm⟩
  · exact Or.inr ⟨a1.trans b2.symm, b1.trans a2.symm⟩
  · exact Or.inl ⟨a1.trans a2.symm, b1.trans b2.symm⟩

/-- In a well-formed state, addPair on a shape pair that already has a
live record returns that record's id and leaves the state unchanged. -/
theorem addPair_existing {st : OverlappingPairs} (h : WF st) {s1 s2 : ProxyShape}
    {i : Nat} (a : Bool) (alg : Nat) (hi : i < st.mNbPairs)
    (hmatch : sameShapePair (st.mPairData i) s1.entity s2.entity) :
    addPair st s1 s2 a alg = ((st.mPairData i).pairId, st) := by
  cases hfind : findExistingSlot st s1.entity s2.entity with
  | some j =>
    obtain ⟨hj, hsame⟩ := findExistingSlot_eq_some hfind
    have hij : j = i := by
      by_contra hne
      exact h.nodup i j hi hj (fun he => hne he.symm) (sameShapePair_trans hmatch hsame)
    subst hij
    exact addPair_found hfind
  | none =>
    exact absurd hmatch (findExistingSlot_eq_none.mp hfind i hi)

/-- Every addPair call leaves behind a live record that holds the given
unordered shape pair and carries the returned id. -/
theorem addPair_creates {st : OverlappingPairs} (h : WF st) {s1 s2 : ProxyShape}
    {a : Bool} {alg p : Nat} {st' : OverlappingPairs}
    (heq : addPair st s1 s2 a alg = (p, st')) :
    ∃ i, i < st'.mNbPairs ∧ sameShapePair (st'.mPairData i) s1.entity s2.entity ∧
      (st'.mPairData i).pairId = p := by
  have hcle := h.csi_le
  cases hfind : findExistingSlot st s1.entity s2.entity with
  | some j =>
    obtain ⟨hj, hsame⟩ := findExistingSlot_eq_some hfind
    rw [addPair_found hfind] at heq
    obtain ⟨hp, hst⟩ := Prod.mk.injEq .. ▸ heq
    subst hst
    exact ⟨j, hj, hsame, hp⟩
  | none =>
    cases hcvc : s1.isConvex && s2.isConvex with
    | false =>
      rw [addPair_concave hfind hcvc] at heq
      obtain ⟨hp, hst⟩ := Prod.mk.injEq .. ▸ heq
      subst hst
      refine ⟨st.mNbPairs, by dsimp only; omega, ?_, ?_⟩
      · dsimp only
        simp only [setSlot_apply, if_pos rfl]
        exact Or.inl ⟨rfl, rfl⟩
      · dsimp only
        simp only [setSlot_apply, if_pos rfl]
        exact hp
    | true =>
      by_cases hcn : st.mConcavePairsStartIndex = st.mNbPairs
      · rw [addPair_convex_boundary hfind hcvc hcn] at heq
        obtain ⟨hp, hst⟩ := Prod.mk.injEq .. ▸ heq
        subst hst
        refine ⟨st.mConcavePairsStartIndex, by dsimp only; omega, ?_, ?_⟩
        · dsimp only
          simp only [setSlot_apply, if_pos rfl]
          exact Or.inl ⟨rfl, rfl⟩
        · dsimp only
          simp only [setSlot_apply, if_pos rfl]
          exact hp
      · rw [addPair_convex_move hfind hcvc hcn] at heq
        obtain ⟨hp, hst⟩ := Prod.mk.injEq .. ▸ heq
        subst hst
        refine ⟨st.mConcavePairsStartIndex, by dsimp only; omega, ?_, ?_⟩
        · dsimp only
          simp only [setSlot_apply, if_pos rfl]
          exact Or.inl ⟨rfl, rfl⟩
        · dsimp only
          simp only [setSlot_apply, if_pos rfl]
          exact hp

/-- addPair leaves the pair count unchanged (duplicate) or grows it by
one. -/
theorem addPair_nbPairs (st : OverlappingPairs) (s1 s2 : ProxyShape) (a : Bool)
    (alg : Nat) : (addPair st s1 s2 a alg).2.mNbPairs = st.mNbPairs ∨
      (addPair st s1 s2 a alg).2.mNbPairs = st.mNbPairs + 1 := by
  unfold addPair
  cases h : findExistingSlot st s1.entity s2.entity with
  | some slot =>
    left
    rfl
  | none =>
    right
    dsimp only
    unfold prepareAddPair movePairToIndex
    split_ifs <;> rfl

/-- removePair leaves the pair count unchanged (unknown id) or shrinks it
by one. -/
theorem removePair_nbPairs (st : OverlappingPairs) (pid : Nat) :
    (removePair st pid).mNbPairs = st.mNbPairs ∨
      (removePair st pid).mNbPairs = st.mNbPairs - 1 := by
  unfold removePair
  cases h : st.mMapPairIdToPairIndex pid with
  | none =>
    left
    rfl
  | some index =>
    right
    dsimp only
    split_ifs <;> rfl

/-- One operation grows the pair count by at most one. -/
theorem nbPairs_applyOp_le (st : OverlappingPairs) (op : PairOp) :
    (applyOp st op).mNbPairs ≤ st.mNbPairs + 1 := by
  cases op with
  | add s1 s2 a alg =>
    show (addPair st s1 s2 a alg).2.mNbPairs ≤ st.mNbPairs + 1
    rcases addPair_nbPairs st s1 s2 a alg with h | h <;> omega
  | remove q =>
    show (removePair st q).mNbPairs ≤ st.mNbPairs + 1
    rcases removePair_nbPairs st q with h | h <;> omega

/-- Starting from any state, the pair count after a sequence of
operations is bounded by the initial count plus the sequence length. -/
theorem nbPairs_runOps_le (st : OverlappingPairs) (ops : List PairOp) :
    (runOps st ops).mNbPairs ≤ st.mNbPairs + ops.length := by
  induction ops generalizing st with
  | nil => exact Nat.le_refl _
  | cons op ops ih =>
    have h1 := nbPairs_applyOp_le st op
    have h2 := ih (applyOp st op)
    simp only [runOps, List.length_cons]
    omega

/-- removePair of a live id always shrinks the count by exactly one. -/
theorem removePair_nbPairs_eq {st : OverlappingPairs} {pid index : Nat}
    (hlook : st.mMapPairIdToPairIndex pid = some index) :
    (removePair st pid).mNbPairs = st.mNbPairs - 1 := by
  unfold removePair
  rw [hlook]
  dsimp only
  split_ifs <;> rfl

/-- removePair decrements the boundary exactly when the removed slot was
in the convex-vs-convex partition. -/
theorem removePair_csi {st : OverlappingPairs} {pid index : Nat}
    (hlook : st.mMapPairIdToPairIndex pid = some index) :
    (removePair st pid).mConcavePairsStartIndex =
      if index < st.mConcavePairsStartIndex then st.mConcavePairsStartIndex - 1
      else st.mConcavePairsStartIndex := by
  unfold removePair
  rw [hlook]
  dsimp only
  split_ifs <;> rfl

/-- After removePair of a live id, that id no longer resolves. -/
theorem removePair_map_self {st : OverlappingPairs} (h : WF st) {pid index : Nat}
    (hlook : st.mMapPairIdToPairIndex pid = some index) :
    (removePair st pid).mMapPairIdToPairIndex pid = none := by
  obtain ⟨hidx, hpid⟩ := (h.map_ok pid index).mp hlook
  have hcle := h.csi_le
  have hself : pid = (st.mPairData index).pairId := hpid.symm
  have hother : ∀ u, u < st.mNbPairs → u ≠ index →
      pid ≠ (st.mPairData u).pairId := by
    intro u hu hne he
    exact hne (h.pairId_inj hu hidx (he.symm.trans hpid.symm))
  by_cases h1 : index < st.mConcavePairsStartIndex
  · by_cases h2 : index = st.mConcavePairsStartIndex - 1
    · by_cases h3 : st.mConcavePairsStartIndex = st.mNbPairs
      · simp only [removePair_convex_soleBoundary hlook h1 h2 h3, mapErase_apply]
        rw [if_pos hself]
      · simp only [removePair_convex_boundary_fill hlook h1 h2 h3, mapSet_apply,
          mapErase_apply]
        rw [if_neg (hother (st.mNbPairs - 1) (by omega) (by omega)), if_pos hself]
    · by_cases h3 : st.mConcavePairsStartIndex = st.mNbPairs
      · simp only [removePair_convex_swap_sole hlook h1 h2 h3, mapSet_apply,
          mapErase_apply]
        rw [if_neg (hother (st.mConcavePairsStartIndex - 1) (by omega) (by omega)),
          if_pos hself]
      · simp only [removePair_convex_swap_fill hlook h1 h2 h3 hcle, mapSet_apply,
          mapErase_apply]
        rw [if_neg (hother (st.mNbPairs - 1) (by omega) (by omega)),
          if_neg (hother (st.mConcavePairsStartIndex - 1) (by omega) (by omega)),
          if_pos hself]
  · by_cases h2 : index = st.mNbPairs - 1
    · simp only [removePair_concave_last hlook h1 h2, mapErase_apply]
      rw [if_pos hself]
    · simp only [removePair_concave_swap hlook h1 h2, mapSet_apply, mapErase_apply]
      rw [if_neg (hother (st.mNbPairs - 1) (by omega) (by omega)), if_pos hself]

-- ------------------------------------------------------------------
-- Concrete fixtures used by the witnesses.
-- ------------------------------------------------------------------

/-- A convex shape used in concrete runs. -/
def shapeA : ProxyShape := ⟨⟨1⟩, 10, true⟩

/-- A convex shape used in concrete runs. -/
def shapeB : ProxyShape := ⟨⟨2⟩, 11, true⟩

/-- A convex shape used in concrete runs. -/
def shapeC : ProxyShape := ⟨⟨3⟩, 12, true⟩

/-- A concave shape used in concrete runs. -/
def shapeD : ProxyShape := ⟨⟨4⟩, 13, false⟩

/-- A registry holding one convex-vs-convex pair (id 0) and one
convex-vs-concave pair (id 1). -/
def demoState : OverlappingPairs :=
  runOps emptyPairs [.add shapeA shapeB true 0, .add shapeC shapeD true 0]

-- ------------------------------------------------------------------
-- Equation lemmas for the temporal-coherence cache operations.
-- ------------------------------------------------------------------

theorem addLastFrameInfo_found {st : OverlappingPairs} {slot id1 id2 : Nat}
    {info : LastFrameCollisionInfo}
    (h : (st.mPairData slot).lastFrameCollisionInfos (shapesPairKey id1 id2) =
      some info) :
    addLastFrameInfoIfNecessary st slot id1 id2 = (info, st) := by
  unfold addLastFrameInfoIfNecessary
  dsimp only
  rw [h]

theorem addLastFrameInfo_new {st : OverlappingPairs} {slot id1 id2 : Nat}
    (h : (st.mPairData slot).lastFrameCollisionInfos (shapesPairKey id1 id2) = none) :
    addLastFrameInfoIfNecessary st slot id1 id2 =
      (LastFrameCollisionInfo.init,
        { st with
            mPairData := setSlot st.mPairData slot
              { st.mPairData slot with
                  lastFrameCollisionInfos := fun k =>
                    if k = shapesPairKey id1 id2 then some LastFrameCollisionInfo.init
                    else (st.mPairData slot).lastFrameCollisionInfos k } }) := by
  unfold addLastFrameInfoIfNecessary
  dsimp only
  rw [h]

/-- The record a live slot holds after one obsolescence sweep. -/
theorem clear_record {st : OverlappingPairs} {slot : Nat} (h : slot < st.mNbPairs) :
    (clearObsoleteLastFrameCollisionInfos st).mPairData slot =
      { st.mPairData slot with
          lastFrameCollisionInfos :=
            sweepLastFrameCollisionInfos
              ((st.mPairData slot).lastFrameCollisionInfos) } := by
  simp only [clearObsoleteLastFrameCollisionInfos]
  rw [if_pos h]

theorem sweep_eq_of_fresh {m : Nat → Option LastFrameCollisionInfo} {k : Nat}
    {info : LastFrameCollisionInfo} (h1 : m k = some info)
    (h2 : info.isObsolete = false) :
    sweepLastFrameCollisionInfos m k = some { info with isObsolete := true } := by
  unfold sweepLastFrameCollisionInfos
  rw [h1]
  dsimp only
  rw [h2]
  simp

theorem sweep_eq_of_obsolete {m : Nat → Option LastFrameCollisionInfo} {k : Nat}
    {info : LastFrameCollisionInfo} (h1 : m k = some info)
    (h2 : info.isObsolete = true) :
    sweepLastFrameCollisionInfos m k = none := by
  unfold sweepLastFrameCollisionInfos
  rw [h1]
  dsimp only
  rw [if_pos h2]

/-- A registry in which pair slot 0 carries one fresh temporal-coherence
record under the canonical key of sub-shape ids 3 and 7. -/
def demoCache : OverlappingPairs := (addLastFrameInfoIfNecessary demoState 0 3 7).2

-- ------------------------------------------------------------------
-- The claims.
-- ------------------------------------------------------------------

/-- C1 (ID stability): in a well-formed registry, a live pairId that no
operation of the sequence removes still resolves via getPairIndex to a
valid slot afterwards, and the whole pair record found there — proxy
shapes, broad-phase ids, the needToTestOverlap and isActive flags, the
narrow-phase algorithm selector — is unchanged, regardless of interleaved
addPair/removePair of other pairs. -/
theorem claim_C1_id_stability {st : OverlappingPairs} (hWF : WF st) {p i : Nat}
    (hlive : getPairIndex st p = some i) (ops : List PairOp)
    (hops : ∀ op ∈ ops, op ≠ PairOp.remove p) :
    ∃ j, getPairIndex (runOps st ops) p = some j ∧
      j < getNbPairs (runOps st ops) ∧
      (runOps st ops).mPairData j = st.mPairData i := by
  obtain ⟨j, hj1, hj2⟩ := liveRecord_runOps hWF hlive hops
  exact ⟨j, hj1, ((hWF.runOps ops).map_ok p j |>.mp hj1).1, hj2⟩

/-- Witness for C1: pair 0 of demoState survives an interleaved add and
the removal of pair 1, with its record intact. -/
theorem claim_C1_witness :
    (∀ op ∈ [PairOp.add shapeC shapeA true 3, PairOp.remove 1],
      op ≠ PairOp.remove 0) ∧
    ∃ j, getPairIndex
        (runOps demoState [PairOp.add shapeC shapeA true 3, PairOp.remove 1]) 0 =
          some j ∧
      j < getNbPairs
        (runOps demoState [PairOp.add shapeC shapeA true 3, PairOp.remove 1]) ∧
      (runOps demoState
          [PairOp.add shapeC shapeA true 3, PairOp.remove 1]).mPairData j =
        demoState.mPairData 0 :=
  ⟨by decide,
    claim_C1_id_stability (WF.emptyPairs.runOps _) (by decide) _ (by decide)⟩

/-- C2 (partition integrity): after any operation sequence from the empty
registry, a slot below getNbPairs holds a convex-vs-convex record exactly
when it lies below getConvexVsConcavePairsStartIndex; every slot from the
boundary up holds a convex-vs-concave record. -/
theorem claim_C2_partition_integrity (ops : List PairOp) (s : Nat)
    (hs : s < getNbPairs (runOps emptyPairs ops)) :
    (((runOps emptyPairs ops).mPairData s).isConvexVsConvex = true ↔
      s < getConvexVsConcavePairsStartIndex (runOps emptyPairs ops)) ∧
    (getConvexVsConcavePairsStartIndex (runOps emptyPairs ops) ≤ s →
      ((runOps emptyPairs ops).mPairData s).isConvexVsConvex = false) := by
  have h := WF.emptyPairs.runOps ops
  have h1 := h.partition_ok s hs
  refine ⟨h1, fun hle => ?_⟩
  cases hb : ((runOps emptyPairs ops).mPairData s).isConvexVsConvex
  · rfl
  · have := h1.mp hb
    unfold getConvexVsConcavePairsStartIndex at hle
    omega

/-- Witness for C2 at slot 1 of demoState (the convex-vs-concave pair). -/
theorem claim_C2_witness :
    1 < getNbPairs (runOps emptyPairs
      [PairOp.add shapeA shapeB true 0, PairOp.add shapeC shapeD true 0]) ∧
    ((((runOps emptyPairs
        [PairOp.add shapeA shapeB true 0,
         PairOp.add shapeC shapeD true 0]).mPairData 1).isConvexVsConvex = true ↔
      1 < getConvexVsConcavePairsStartIndex (runOps emptyPairs
        [PairOp.add shapeA shapeB true 0, PairOp.add shapeC shapeD true 0])) ∧
    (getConvexVsConcavePairsStartIndex (runOps emptyPairs
        [PairOp.add shapeA shapeB true 0, PairOp.add shapeC shapeD true 0]) ≤ 1 →
      ((runOps emptyPairs
        [PairOp.add shapeA shapeB true 0,
         PairOp.add shapeC shapeD true 0]).mPairData 1).isConvexVsConvex = false)) :=
  ⟨by decide, claim_C2_partition_integrity _ 1 (by decide)⟩

/-- C8 (body-pair canonicalization): for entities with distinct ids,
computeBodiesIndexPair is symmetric, orders the smaller id first, and the
asserted precondition (the two components differ) holds on the result. -/
theorem claim_C8_computeBodiesIndexPair {b1 b2 : Entity} (h : b1.id ≠ b2.id) :
    computeBodiesIndexPair b1 b2 = computeBodiesIndexPair b2 b1 ∧
    (computeBodiesIndexPair b1 b2).1.id < (computeBodiesIndexPair b1 b2).2.id ∧
    (computeBodiesIndexPair b1 b2).1 ≠ (computeBodiesIndexPair b1 b2).2 := by
  unfold computeBodiesIndexPair
  rcases Nat.lt_or_ge b1.id b2.id with hlt | hge
  · rw [if_pos hlt, if_neg (by omega)]
    exact ⟨rfl, hlt, fun he => h (congrArg Entity.id he)⟩
  · have hlt : b2.id < b1.id := by omega
    rw [if_neg (by omega), if_pos hlt]
    exact ⟨rfl, hlt, fun he => h (congrArg Entity.id he).symm⟩

/-- Witness for C8 on entities 1 and 2. -/
theorem claim_C8_witness :
    (Entity.id ⟨1⟩ ≠ Entity.id ⟨2⟩) ∧
    (computeBodiesIndexPair ⟨1⟩ ⟨2⟩ = computeBodiesIndexPair ⟨2⟩ ⟨1⟩ ∧
     (computeBodiesIndexPair ⟨1⟩ ⟨2⟩).1.id < (computeBodiesIndexPair ⟨1⟩ ⟨2⟩).2.id ∧
     (computeBodiesIndexPair ⟨1⟩ ⟨2⟩).1 ≠ (computeBodiesIndexPair ⟨1⟩ ⟨2⟩).2) :=
  ⟨by decide, claim_C8_computeBodiesIndexPair (by decide)⟩

/-- C9 (absent coherence record is an explicit none): for a live pairId,
getLastFrameCollisionInfo returns the stored record of that pair's cache
when the key is present and the explicit absent value when it is not; the
function only reads the state (it returns a value and no state). -/
theorem claim_C9_getLastFrameCollisionInfo {st : OverlappingPairs} {pid index : Nat}
    (hlive : st.mMapPairIdToPairIndex pid = some index) (k : Nat) :
    (∀ info, (st.mPairData index).lastFrameCollisionInfos k = some info →
      getLastFrameCollisionInfo st pid k = some info) ∧
    ((st.mPairData index).lastFrameCollisionInfos k = none →
      getLastFrameCollisionInfo st pid k = none) := by
  unfold getLastFrameCollisionInfo
  rw [hlive]
  exact ⟨fun info h => h, fun h => h⟩

/-- Witness for C9: pair 0 of demoState with an absent key. -/
theorem claim_C9_witness :
    demoState.mMapPairIdToPairIndex 0 = some 0 ∧
    ((∀ info, (demoState.mPairData 0).lastFrameCollisionInfos 5 = some info →
      getLastFrameCollisionInfo demoState 0 5 = some info) ∧
    ((demoState.mPairData 0).lastFrameCollisionInfos 5 = none →
      getLastFrameCollisionInfo demoState 0 5 = none)) :=
  ⟨by decide, claim_C9_getLastFrameCollisionInfo (by decide) 5⟩

/-- C10 (count consistency): after any operation sequence from the empty
registry (of machine-representable length), the boundary never exceeds the
pair count, so the uint64 subtraction in getNbConvexVsConcavePairs never
wraps; the counts add up and getNbConvexVsConvexPairs coincides with
getConvexVsConcavePairsStartIndex, both reading the same counter. -/
theorem claim_C10_count_consistency (ops : List PairOp)
    (hlen : ops.length < UINT64_MOD) :
    getConvexVsConcavePairsStartIndex (runOps emptyPairs ops) ≤
      getNbPairs (runOps emptyPairs ops) ∧
    getNbConvexVsConcavePairs (runOps emptyPairs ops) =
      getNbPairs (runOps emptyPairs ops) -
        getConvexVsConcavePairsStartIndex (runOps emptyPairs ops) ∧
    getNbPairs (runOps emptyPairs ops) =
      getNbConvexVsConvexPairs (runOps emptyPairs ops) +
        getNbConvexVsConcavePairs (runOps emptyPairs ops) ∧
    getNbConvexVsConvexPairs (runOps emptyPairs ops) =
      getConvexVsConcavePairsStartIndex (runOps emptyPairs ops) := by
  have hWF := WF.emptyPairs.runOps ops
  have hcle := hWF.csi_le
  have hb := nbPairs_runOps_le emptyPairs ops
  have h0 : emptyPairs.mNbPairs = 0 := rfl
  unfold getNbConvexVsConcavePairs getNbPairs getNbConvexVsConvexPairs
    getConvexVsConcavePairsStartIndex UINT64_MOD at *
  refine ⟨hcle, ?_, ?_, rfl⟩ <;> omega

/-- Witness for C10 on the two-element run. -/
theorem claim_C10_witness :
    ([PairOp.add shapeA shapeB true 0, PairOp.add shapeC shapeD true 0].length <
      UINT64_MOD) ∧
    (getConvexVsConcavePairsStartIndex (runOps emptyPairs
        [PairOp.add shapeA shapeB true 0, PairOp.add shapeC shapeD true 0]) ≤
      getNbPairs (runOps emptyPairs
        [PairOp.add shapeA shapeB true 0, PairOp.add shapeC shapeD true 0]) ∧
    getNbConvexVsConcavePairs (runOps emptyPairs
        [PairOp.add shapeA shapeB true 0, PairOp.add shapeC shapeD true 0]) =
      getNbPairs (runOps emptyPairs
        [PairOp.add shapeA shapeB true 0, PairOp.add shapeC shapeD true 0]) -
        getConvexVsConcavePairsStartIndex (runOps emptyPairs
          [PairOp.add shapeA shapeB true 0, PairOp.add shapeC shapeD true 0]) ∧
    getNbPairs (runOps emptyPairs
        [PairOp.add shapeA shapeB true 0, PairOp.add shapeC shapeD true 0]) =
      getNbConvexVsConvexPairs (runOps emptyPairs
        [PairOp.add shapeA shapeB true 0, PairOp.add shapeC shapeD true 0]) +
        getNbConvexVsConcavePairs (runOps emptyPairs
          [PairOp.add shapeA shapeB true 0, PairOp.add shapeC shapeD true 0]) ∧
    getNbConvexVsConvexPairs (runOps emptyPairs
        [PairOp.add shapeA shapeB true 0, PairOp.add shapeC shapeD true 0]) =
      getConvexVsConcavePairsStartIndex (runOps emptyPairs
        [PairOp.add shapeA shapeB true 0, PairOp.add shapeC shapeD true 0])) :=
  ⟨by decide, claim_C10_count_consistency _ (by decide)⟩

/-- C3 (duplicate addPair is a no-op returning the existing id): in a
well-formed registry, after addPair returned id p for a shape pair, a
second addPair on the same unordered pair — in either argument order and
with any activity flag or algorithm selector — returns the same id p,
creates no record and changes nothing, so getNbPairs is unchanged. -/
theorem claim_C3_duplicate_addPair {st : OverlappingPairs} (hWF : WF st)
    {s1 s2 : ProxyShape} {a : Bool} {alg p : Nat} {st' : OverlappingPairs}
    (hfirst : addPair st s1 s2 a alg = (p, st')) (a' : Bool) (alg' : Nat) :
    addPair st' s1 s2 a' alg' = (p, st') ∧
    addPair st' s2 s1 a' alg' = (p, st') ∧
    getNbPairs (addPair st' s1 s2 a' alg').2 = getNbPairs st' := by
  have hWF' : WF st' := by
    have h := hWF.addPair s1 s2 a alg
    rw [hfirst] at h
    exact h
  obtain ⟨i, hi, hmatch, hpid⟩ := addPair_creates hWF hfirst
  have h1 := addPair_existing hWF' a' alg' hi hmatch
  have h2 := addPair_existing hWF' a' alg' hi (sameShapePair_symm.mp hmatch)
  rw [hpid] at h1 h2
  refine ⟨h1, h2, ?_⟩
  rw [h1]

/-- Witness for C3: re-adding the pair (A,B), in both orders, on the
state produced by its first insertion. -/
theorem claim_C3_witness :
    addPair (addPair emptyPairs shapeA shapeB true 0).2 shapeA shapeB false 7 =
      (0, (addPair emptyPairs shapeA shapeB true 0).2) ∧
    addPair (addPair emptyPairs shapeA shapeB true 0).2 shapeB shapeA false 7 =
      (0, (addPair emptyPairs shapeA shapeB true 0).2) ∧
    getNbPairs
        (addPair (addPair emptyPairs shapeA shapeB true 0).2 shapeA shapeB false 7).2 =
      getNbPairs (addPair emptyPairs shapeA shapeB true 0).2 :=
  claim_C3_duplicate_addPair WF.emptyPairs rfl false 7

/-- C4 (pair removal is swap-and-pop within the record's own partition):
removing a live pair shrinks the count by one, unmaps the removed id,
decrements the boundary exactly for a convex-vs-convex slot, moves the
last record of the removed record's partition into the freed slot and
remaps that record's id there; in particular, removing the only
convex-vs-convex pair from a registry of one convex and one concave pair
leaves the boundary at 0, the remaining pair in slot 0, and one pair. -/
theorem claim_C4_removePair {st : OverlappingPairs} (hWF : WF st) {pid index : Nat}
    (hlook : getPairIndex st pid = some index) :
    getNbPairs (removePair st pid) = getNbPairs st - 1 ∧
    getPairIndex (removePair st pid) pid = none ∧
    (index < getConvexVsConcavePairsStartIndex st →
      getConvexVsConcavePairsStartIndex (removePair st pid) =
        getConvexVsConcavePairsStartIndex st - 1) ∧
    (getConvexVsConcavePairsStartIndex st ≤ index →
      getConvexVsConcavePairsStartIndex (removePair st pid) =
        getConvexVsConcavePairsStartIndex st) ∧
    (index < getConvexVsConcavePairsStartIndex st →
      index ≠ getConvexVsConcavePairsStartIndex st - 1 →
      (removePair st pid).mPairData index =
        st.mPairData (getConvexVsConcavePairsStartIndex st - 1) ∧
      getPairIndex (removePair st pid)
        (st.mPairData (getConvexVsConcavePairsStartIndex st - 1)).pairId =
          some index) ∧
    (getConvexVsConcavePairsStartIndex st ≤ index →
      index ≠ getNbPairs st - 1 →
      (removePair st pid).mPairData index = st.mPairData (getNbPairs st - 1) ∧
      getPairIndex (removePair st pid) (st.mPairData (getNbPairs st - 1)).pairId =
        some index) ∧
    (getNbPairs st = 2 → getConvexVsConcavePairsStartIndex st = 1 → index = 0 →
      getConvexVsConcavePairsStartIndex (removePair st pid) = 0 ∧
      getNbPairs (removePair st pid) = 1 ∧
      (removePair st pid).mPairData 0 = st.mPairData 1 ∧
      getPairIndex (removePair st pid) (st.mPairData 1).pairId = some 0) := by
  have hlook' : st.mMapPairIdToPairIndex pid = some index := hlook
  obtain ⟨hidx, hpid⟩ := (hWF.map_ok pid index).mp hlook'
  have hcle := hWF.csi_le
  unfold getNbPairs getPairIndex getConvexVsConcavePairsStartIndex
  refine ⟨removePair_nbPairs_eq hlook', removePair_map_self hWF hlook',
    ?_, ?_, ?_, ?_, ?_⟩
  · intro h1
    rw [removePair_csi hlook', if_pos h1]
  · intro h1
    rw [removePair_csi hlook', if_neg (by omega)]
  · intro h1 h2
    by_cases h3 : st.mConcavePairsStartIndex = st.mNbPairs
    · rw [removePair_convex_swap_sole hlook' h1 h2 h3]
      constructor
      · dsimp only
        simp [setSlot_apply]
      · dsimp only
        simp [mapSet_apply]
    · rw [removePair_convex_swap_fill hlook' h1 h2 h3 hcle]
      have hne : (st.mPairData (st.mConcavePairsStartIndex - 1)).pairId ≠
          (st.mPairData (st.mNbPairs - 1)).pairId := by
        intro he
        have := hWF.pairId_inj (i := st.mConcavePairsStartIndex - 1)
          (j := st.mNbPairs - 1) (by omega) (by omega) he
        omega
      constructor
      · dsimp only
        simp [setSlot_apply, h2]
      · dsimp only
        simp only [mapSet_apply]
        rw [if_neg hne]
        simp
  · intro h1 h2
    rw [removePair_concave_swap hlook' (by omega) h2]
    constructor
    · dsimp only
      simp [setSlot_apply]
    · dsimp only
      simp [mapSet_apply]
  · intro hn2 hc1 hi0
    subst hi0
    have h3 : ¬ st.mConcavePairsStartIndex = st.mNbPairs := by omega
    rw [removePair_convex_boundary_fill hlook' (by omega) (by omega) h3]
    refine ⟨by dsimp only; omega, by dsimp only; omega, ?_, ?_⟩
    · dsimp only
      rw [hn2, hc1]
      simp [setSlot_apply]
    · dsimp only
      rw [hn2, hc1]
      simp [mapSet_apply]

/-- Witness for C4: removing pair 0 (the convex-vs-convex pair) from
demoState, the spec's Scenario B. -/
theorem claim_C4_witness :
    getPairIndex demoState 0 = some 0 ∧
    (getNbPairs (removePair demoState 0) = getNbPairs demoState - 1 ∧
    getPairIndex (removePair demoState 0) 0 = none ∧
    (0 < getConvexVsConcavePairsStartIndex demoState →
      getConvexVsConcavePairsStartIndex (removePair demoState 0) =
        getConvexVsConcavePairsStartIndex demoState - 1) ∧
    (getConvexVsConcavePairsStartIndex demoState ≤ 0 →
      getConvexVsConcavePairsStartIndex (removePair demoState 0) =
        getConvexVsConcavePairsStartIndex demoState) ∧
    (0 < getConvexVsConcavePairsStartIndex demoState →
      0 ≠ getConvexVsConcavePairsStartIndex demoState - 1 →
      (removePair demoState 0).mPairData 0 =
        demoState.mPairData (getConvexVsConcavePairsStartIndex demoState - 1) ∧
      getPairIndex (removePair demoState 0)
        (demoState.mPairData
          (getConvexVsConcavePairsStartIndex demoState - 1)).pairId = some 0) ∧
    (getConvexVsConcavePairsStartIndex demoState ≤ 0 →
      0 ≠ getNbPairs demoState - 1 →
      (removePair demoState 0).mPairData 0 =
        demoState.mPairData (getNbPairs demoState - 1) ∧
      getPairIndex (removePair demoState 0)
        (demoState.mPairData (getNbPairs demoState - 1)).pairId = some 0) ∧
    (getNbPairs demoState = 2 → getConvexVsConcavePairsStartIndex demoState = 1 →
      0 = 0 →
      getConvexVsConcavePairsStartIndex (removePair demoState 0) = 0 ∧
      getNbPairs (removePair demoState 0) = 1 ∧
      (removePair demoState 0).mPairData 0 = demoState.mPairData 1 ∧
      getPairIndex (removePair demoState 0) (demoState.mPairData 1).pairId =
        some 0)) :=
  ⟨by decide, claim_C4_removePair (WF.emptyPairs.runOps _) (by decide)⟩

/-- C5 (two-sweep obsolescence bound): a coherence record that was fresh
(not marked obsolete) is still present after one
clearObsoleteLastFrameCollisionInfos sweep, only marked obsolete, and is
absent after a second sweep with no intervening touch; a single missed
sweep alone never deletes a record. -/
theorem claim_C5_two_sweeps {st : OverlappingPairs} {slot k : Nat}
    {info : LastFrameCollisionInfo} (hslot : slot < getNbPairs st)
    (hrec : (st.mPairData slot).lastFrameCollisionInfos k = some info)
    (hfresh : info.isObsolete = false) :
    ((clearObsoleteLastFrameCollisionInfos st).mPairData slot).lastFrameCollisionInfos
        k = some { info with isObsolete := true } ∧
    ((clearObsoleteLastFrameCollisionInfos
        (clearObsoleteLastFrameCollisionInfos st)).mPairData
          slot).lastFrameCollisionInfos k = none := by
  have hslot' : slot < st.mNbPairs := hslot
  have first : ((clearObsoleteLastFrameCollisionInfos st).mPairData
      slot).lastFrameCollisionInfos k = some { info with isObsolete := true } := by
    rw [clear_record hslot']
    exact sweep_eq_of_fresh hrec hfresh
  refine ⟨first, ?_⟩
  have hs1 : slot < (clearObsoleteLastFrameCollisionInfos st).mNbPairs := hslot'
  rw [clear_record hs1]
  exact sweep_eq_of_obsolete first rfl

/-- Witness for C5 on the record of demoCache. -/
theorem claim_C5_witness :
    (0 < getNbPairs demoCache ∧
     (demoCache.mPairData 0).lastFrameCollisionInfos (shapesPairKey 3 7) =
       some LastFrameCollisionInfo.init ∧
     LastFrameCollisionInfo.init.isObsolete = false) ∧
    (((clearObsoleteLastFrameCollisionInfos demoCache).mPairData
        0).lastFrameCollisionInfos (shapesPairKey 3 7) =
      some { LastFrameCollisionInfo.init with isObsolete := true } ∧
     ((clearObsoleteLastFrameCollisionInfos
        (clearObsoleteLastFrameCollisionInfos demoCache)).mPairData
          0).lastFrameCollisionInfos (shapesPairKey 3 7) = none) :=
  ⟨⟨by decide, by decide, by decide⟩,
    claim_C5_two_sweeps (by decide) (by decide) (by decide)⟩

/-- C6 (getOrCreate semantics): when the canonical key has no record in
the slot's cache, addLastFrameInfoIfNecessary returns a fresh record with
isValid false and the default separating axis (0, 1, 0) and stores it
under the key; when a record exists, it returns exactly that record and
the whole state is unchanged. -/
theorem claim_C6_getOrCreate (st : OverlappingPairs) (slot id1 id2 : Nat) :
    ((st.mPairData slot).lastFrameCollisionInfos (shapesPairKey id1 id2) = none →
      (addLastFrameInfoIfNecessary st slot id1 id2).1.isValid = false ∧
      (addLastFrameInfoIfNecessary st slot id1 id2).1.gjkSeparatingAxis = ⟨0, 1, 0⟩ ∧
      ((addLastFrameInfoIfNecessary st slot id1 id2).2.mPairData
          slot).lastFrameCollisionInfos (shapesPairKey id1 id2) =
        some (addLastFrameInfoIfNecessary st slot id1 id2).1) ∧
    (∀ info,
      (st.mPairData slot).lastFrameCollisionInfos (shapesPairKey id1 id2) =
        some info →
      addLastFrameInfoIfNecessary st slot id1 id2 = (info, st)) := by
  constructor
  · intro habs
    rw [addLastFrameInfo_new habs]
    refine ⟨rfl, rfl, ?_⟩
    dsimp only
    simp [setSlot_apply]
  · intro info hfound
    exact addLastFrameInfo_found hfound

/-- Witness for C6: creating the record of demoCache from demoState. -/
theorem claim_C6_witness :
    (demoState.mPairData 0).lastFrameCollisionInfos (shapesPairKey 3 7) = none ∧
    ((addLastFrameInfoIfNecessary demoState 0 3 7).1.isValid = false ∧
     (addLastFrameInfoIfNecessary demoState 0 3 7).1.gjkSeparatingAxis = ⟨0, 1, 0⟩ ∧
     ((addLastFrameInfoIfNecessary demoState 0 3 7).2.mPairData
         0).lastFrameCollisionInfos (shapesPairKey 3 7) =
       some (addLastFrameInfoIfNecessary demoState 0 3 7).1) :=
  ⟨by decide, (claim_C6_getOrCreate demoState 0 3 7).1 (by decide)⟩

/-- C7 (sub-shape key canonicalization): the canonical key is symmetric
in the two sub-shape ids, so addLastFrameInfoIfNecessary called with the
ids in either order is the same call; consequently an immediate second
call with the swapped ids returns exactly the record of the first call
and leaves the state of the first call unchanged. -/
theorem claim_C7_key_canonical (st : OverlappingPairs) (slot id1 id2 : Nat) :
    shapesPairKey id1 id2 = shapesPairKey id2 id1 ∧
    addLastFrameInfoIfNecessary st slot id1 id2 =
      addLastFrameInfoIfNecessary st slot id2 id1 ∧
    addLastFrameInfoIfNecessary
        (addLastFrameInfoIfNecessary st slot id1 id2).2 slot id2 id1 =
      ((addLastFrameInfoIfNecessary st slot id1 id2).1,
        (addLastFrameInfoIfNecessary st slot id1 id2).2) := by
  have hkey : shapesPairKey id1 id2 = shapesPairKey id2 id1 := by
    unfold shapesPairKey
    rw [Nat.min_comm, Nat.max_comm]
  have hcall : ∀ s : OverlappingPairs,
      addLastFrameInfoIfNecessary s slot id2 id1 =
        addLastFrameInfoIfNecessary s slot id1 id2 := by
    intro s
    unfold addLastFrameInfoIfNecessary
    dsimp only
    rw [← hkey]
  refine ⟨hkey, (hcall st).symm, ?_⟩
  rw [hcall _]
  cases hrec : (st.mPairData slot).lastFrameCollisionInfos (shapesPairKey id1 id2) with
  | some info =>
    rw [addLastFrameInfo_found hrec]
    exact addLastFrameInfo_found hrec
  | none =>
    rw [addLastFrameInfo_new hrec]
    apply addLastFrameInfo_found
    dsimp only
    simp [setSlot_apply]

end RP3D
